import Mathlib

/-!
Verification development for a vscode source fragment: the HTML/Razor
character-stream tokenizer (src/vs/languages/html/common/html.ts,
src/vs/languages/razor/common/razor.ts), the scrollbar state geometry
(src/vs/base/browser/ui/scrollbar/abstractScrollbar.ts) and the
configuration service merging logic
(src/vs/platform/configuration/common/configurationService.ts).

Strings are embedded as lists of characters.  The mode's character
stream (an IStream over a single line) is a source string together with
a cursor position; the stream helper methods used by the tokenizer
(advanceIfCharCode2, advanceIfString2, advanceIfStringCaseInsensitive2,
advanceUntilString, advanceUntilString2, skipWhitespace2, next, next2,
peek, eos and the two advanceIfRegExp uses) are modelled directly from
their evident single-line semantics, since the LineStream implementation
file itself is not part of the fragment.  JavaScript toLowerCase is
modelled by its ASCII case table.
-/

abbrev Chars := List Char

/-- ASCII lower-casing of one character (models String.prototype.toLowerCase,
which the tokenizer only applies to ASCII element/attribute names and to the
DOCTYPE comparison). -/
def charLower (c : Char) : Char :=
  match c with
  | 'A' => 'a'
  | 'B' => 'b'
  | 'C' => 'c'
  | 'D' => 'd'
  | 'E' => 'e'
  | 'F' => 'f'
  | 'G' => 'g'
  | 'H' => 'h'
  | 'I' => 'i'
  | 'J' => 'j'
  | 'K' => 'k'
  | 'L' => 'l'
  | 'M' => 'm'
  | 'N' => 'n'
  | 'O' => 'o'
  | 'P' => 'p'
  | 'Q' => 'q'
  | 'R' => 'r'
  | 'S' => 's'
  | 'T' => 't'
  | 'U' => 'u'
  | 'V' => 'v'
  | 'W' => 'w'
  | 'X' => 'x'
  | 'Y' => 'y'
  | 'Z' => 'z'
  | other => other

/-- Lower-case a whole string. -/
def lowerChars (l : Chars) : Chars := l.map charLower

/-- Whitespace characters (the ASCII part of the regexp class \s). -/
def isWhitespaceChar (c : Char) : Bool :=
  c = ' ' || c = '\t' || c = '\n' || c = '\x0d' || c = '\x0c' || c = '\x0b'

/-- The regexp class \w, i.e. [A-Za-z0-9_]. -/
def isWordChar (c : Char) : Bool :=
  ('a' ≤ c && c ≤ 'z') || ('A' ≤ c && c ≤ 'Z') || ('0' ≤ c && c ≤ '9') || c = '_'

/-- First character of an element name: the class [_:\w]. -/
def isElemStart (c : Char) : Bool := isWordChar c || c = ':'

/-- Later characters of an element name: the class [_:\w-.\d]
(inside the class the dash and the dot are literals). -/
def isElemRest (c : Char) : Bool := isElemStart c || c = '-' || c = '.'

/-- Characters allowed in an attribute name:
the negated class [^\s"'>/=\x00-\x0F\x7F\x80-\x9F]. -/
def isAttrNameChar (c : Char) : Bool :=
  !(isWhitespaceChar c) && !(c = '"') && !(c = '\'') && !(c = '>') && !(c = '/') &&
  !(c = '=') && !(c.toNat ≤ 0x0F) && !(c.toNat = 0x7F) &&
  !(0x80 ≤ c.toNat && c.toNat ≤ 0x9F)

/-- Characters allowed in an unquoted attribute value:
the negated class of /^[^\s"'`=<>]+/. -/
def isAttrValueChar (c : Char) : Bool :=
  !(isWhitespaceChar c) && !(c = '"') && !(c = '\'') && !(c = '`') && !(c = '=') &&
  !(c = '<') && !(c = '>')

/-- A single-line character stream: the source text and the cursor position. -/
structure HStream where
  src : Chars
  pos : Nat
deriving DecidableEq

/-- The text from the cursor to the end of the line. -/
def HStream.rest (s : HStream) : Chars := s.src.drop s.pos

/-- End of stream: the cursor is at or past the end of the source. -/
def HStream.eos (s : HStream) : Bool := decide (s.src.length ≤ s.pos)

/-- The character under the cursor (only meaningful when not at eos). -/
def HStream.peek (s : HStream) : Char := s.rest.headD ' '

/-- Move the cursor forward by n characters. -/
def HStream.advance (s : HStream) (n : Nat) : HStream := { s with pos := s.pos + n }

/-- stream.next2(): advance by one character. -/
def HStream.next2 (s : HStream) : HStream := s.advance 1

/-- stream.next(): return the character under the cursor and advance by one. -/
def HStream.next (s : HStream) : Char × HStream := (s.peek, s.advance 1)

/-- stream.advanceIfCharCode2(code): consume one character exactly when the
stream is not at eos and the next character has the given code. -/
def HStream.advanceIfCharCode2 (c : Char) (s : HStream) : Bool × HStream :=
  if s.eos = false ∧ s.peek = c then (true, s.advance 1) else (false, s)

/-- stream.advanceIfString2(condition): consume the string exactly when the
text at the cursor starts with it. -/
def HStream.advanceIfString2 (w : Chars) (s : HStream) : Bool × HStream :=
  if s.rest.take w.length = w then (true, s.advance w.length) else (false, s)

/-- stream.advanceIfStringCaseInsensitive2(condition): case-insensitive
variant of advanceIfString2. -/
def HStream.advanceIfStringCaseInsensitive2 (w : Chars) (s : HStream) : Bool × HStream :=
  if lowerChars (s.rest.take w.length) = lowerChars w then (true, s.advance w.length)
  else (false, s)

/-- Index of the first occurrence of w in l (String.prototype.indexOf). -/
def findSubstr (w : Chars) : Chars → Option Nat
  | [] => if w = [] then some 0 else none
  | c :: t => if (c :: t).take w.length = w then some 0 else (findSubstr w t).map (· + 1)

/-- stream.advanceUntilString(condition, including): advance until the first
occurrence of the string (consuming it too when including is set; advancing
to the end of the line when it does not occur) and return the consumed text. -/
def HStream.advanceUntilString (w : Chars) (including : Bool) (s : HStream) :
    Chars × HStream :=
  if s.eos = true ∨ w = [] then ([], s)
  else
    match findSubstr w s.rest with
    | some i =>
      (s.rest.take (if including then i + w.length else i),
       s.advance (if including then i + w.length else i))
    | none => (s.rest, s.advance s.rest.length)

/-- stream.advanceUntilString2(condition, including): same advance, returning
whether any characters were consumed. -/
def HStream.advanceUntilString2 (w : Chars) (including : Bool) (s : HStream) :
    Bool × HStream :=
  (decide (0 < (s.advanceUntilString w including).1.length),
   (s.advanceUntilString w including).2)

/-- stream.skipWhitespace2(): consume the leading whitespace, returning
whether any characters were consumed. -/
def HStream.skipWhitespace2 (s : HStream) : Bool × HStream :=
  (decide (0 < (s.rest.takeWhile isWhitespaceChar).length),
   s.advance (s.rest.takeWhile isWhitespaceChar).length)

/-- nextElementName: stream.advanceIfRegExp over the pattern of element names
followed by toLowerCase (an empty match consumes nothing). -/
def HStream.nextElementName (s : HStream) : Chars × HStream :=
  if s.eos = false ∧ isElemStart s.peek = true then
    (lowerChars (s.rest.take ((s.rest.tail.takeWhile isElemRest).length + 1)),
     s.advance ((s.rest.tail.takeWhile isElemRest).length + 1))
  else ([], s)

/-- nextAttributeName: stream.advanceIfRegExp over the attribute-name class
followed by toLowerCase (the pattern is starred, so it can match empty). -/
def HStream.nextAttributeName (s : HStream) : Chars × HStream :=
  (lowerChars (s.rest.take (s.rest.takeWhile isAttrNameChar).length),
   s.advance (s.rest.takeWhile isAttrNameChar).length)

/-- The stream.advanceIfRegExp use for unquoted attribute values. -/
def HStream.advanceIfAttrValueRegExp (s : HStream) : Chars × HStream :=
  (s.rest.take (s.rest.takeWhile isAttrValueChar).length,
   s.advance (s.rest.takeWhile isAttrValueChar).length)

/-! ## The HTML tokenizer state machine (html.ts) -/

/-- The nine tokenizer states (enum States of html.ts). -/
inductive States
  | Content
  | OpeningStartTag
  | OpeningEndTag
  | WithinDoctype
  | WithinTag
  | WithinComment
  | WithinEmbeddedContent
  | AttributeName
  | AttributeValue
deriving DecidableEq

/-- Token types.  Modelled from the spec: the htmlTokenTypes and
razorTokenTypes modules are not part of the fragment; their string constants
are embedded as distinct symbols, with getTag(name) embedded as the tag
constructor applied to the name. -/
inductive TokenType
  | empty
  | comment
  | delimComment
  | doctype
  | delimDoctype
  | delimEnd
  | delimStart
  | delimAssign
  | attribName
  | attribValue
  | embedCS
  | tag (name : Chars)
  | stuck
deriving DecidableEq

/-- The tokenizer state (class State of html.ts).  The string fields that the
source sets to null are modelled as Option Chars with none for null; the
others never hold null along any path of the fragment and stay Chars. -/
structure State where
  kind : States
  lastTagName : Chars
  lastAttributeName : Option Chars
  embeddedContentType : Option Chars
  attributeValueQuote : Chars
  attributeValue : Chars
deriving DecidableEq

/-- The nested-mode states the Razor tokenizer can hand over to
(csharpTokenization.ts is not part of the fragment; its CSComment and
CSStatement constructors are embedded as opaque constructors recording the
arguments the razor tokenizer passes). -/
inductive NextModeState
  | csComment (parent : State) (whitespaceEnd : Char)
  | csStatement (parent : State) (level : Nat) (plevel : Nat)
      (razorMode : Bool) (expression : Bool) (firstToken : Bool)
      (firstTokenWasASemicolon : Bool)
deriving DecidableEq

/-- The result of one tokenize call: the ITokenizationResult together with the
mutated state and stream.  type none models a result object without a type
field; nextState none models a result without a nextState. -/
structure TokOut where
  type : Option TokenType
  dontMergeWithPrev : Bool
  nextState : Option NextModeState
  state : State
  stream : HStream
deriving DecidableEq

/-- Build an ordinary tokenization result. -/
def ret (t : TokenType) (dmwp : Bool) (st : State) (s : HStream) : TokOut :=
  { type := some t, dontMergeWithPrev := dmwp, nextState := none, state := st, stream := s }

def strScript : Chars := ['s', 'c', 'r', 'i', 'p', 't']
def strStyle : Chars := ['s', 't', 'y', 'l', 'e']
def strType : Chars := ['t', 'y', 'p', 'e']
def strGt : Chars := ['>']
def strSlash : Chars := ['/']
def strSlashGt : Chars := ['/', '>']
def strArrowEnd : Chars := ['-', '-', '>']
def strBangDashDash : Chars := ['!', '-', '-']
def strBangDoctype : Chars := ['!', 'D', 'O', 'C', 'T', 'Y', 'P', 'E']

/-- List of elements that embed other content (html.ts line 40). -/
def tagsEmbeddingContent : List Chars := [strScript, strStyle]

/-- State.escapeTagName: replace the characters [:_.] by dashes and wrap the
result with getTag. -/
def escapeTagName (name : Chars) : TokenType :=
  .tag (name.map fun c => if c = ':' ∨ c = '_' ∨ c = '.' then '-' else c)

/-- JavaScript String.prototype.substring (swaps its arguments when
start exceeds end). -/
def jsSubstring (v : Chars) (a b : Nat) : Chars :=
  if a ≤ b then (v.take b).drop a else (v.take a).drop b

/-- State.unquote: strip one leading and one trailing double quote. -/
def unquote (value : Chars) : Chars :=
  let start := if value.head? = some '"' then 1 else 0
  let stop := if value.getLast? = some '"' ∧ value.length ≠ 0 then value.length - 1
              else value.length
  jsSubstring value start stop

/-!
In the source the stream is a mutable object, and a helper call that matches
nothing leaves it unchanged; the pure embedding below therefore continues
with the original stream in those failure branches, which is the same
stream the source continues with.
-/

/-- The shared fall-through at the bottom of the tokenize switch:
stream.next2(); kind := Content; return type ''. -/
def fallthroughTok (st : State) (s : HStream) : TokOut :=
  ret .empty false { st with kind := .Content } s.next2

/-- The Content branch after the leading < has been consumed. -/
def afterLtSlash (st : State) (s : HStream) : TokOut :=
  if (s.advanceIfCharCode2 '/').1 = true then
    ret .delimEnd true { st with kind := .OpeningEndTag } (s.advanceIfCharCode2 '/').2
  else
    ret .delimStart true { st with kind := .OpeningStartTag } s

def tokenizeContentAfterLt (st : State) (s : HStream) : TokOut :=
  if s.eos = false ∧ s.peek = '!' then
    if (s.advanceIfString2 strBangDashDash).1 = true then
      ret .delimComment true { st with kind := .WithinComment }
        (s.advanceIfString2 strBangDashDash).2
    else if (s.advanceIfStringCaseInsensitive2 strBangDoctype).1 = true then
      ret .delimDoctype true { st with kind := .WithinDoctype }
        (s.advanceIfStringCaseInsensitive2 strBangDoctype).2
    else afterLtSlash st s
  else afterLtSlash st s

/-- The tail of the WithinTag case: the checks for />, for > (with the
embedded-content transition) and the single-character default. -/
def withinTagRest (st : State) (s : HStream) : TokOut :=
  if (s.advanceIfString2 strSlashGt).1 = true then
    ret .delimStart true { st with kind := .Content } (s.advanceIfString2 strSlashGt).2
  else if (s.advanceIfCharCode2 '>').1 = true then
    if st.lastTagName ∈ tagsEmbeddingContent then
      ret .delimStart true { st with kind := .WithinEmbeddedContent }
        (s.advanceIfCharCode2 '>').2
    else
      ret .delimStart true { st with kind := .Content } (s.advanceIfCharCode2 '>').2
  else ret .empty false st s.next2

/-- The found-a-tag-name part of the OpeningStartTag case. -/
def openingStartTagFound (st : State) (name : Chars) (s : HStream) : TokOut :=
  let st1 : State := { st with lastTagName := name, lastAttributeName := none }
  let st2 : State :=
    if name = strScript ∨ name = strStyle then
      { st1 with lastAttributeName := none, embeddedContentType := none }
    else st1
  ret (escapeTagName name) false { st2 with kind := .WithinTag } s

/-- The AttributeValue sub-branch for a quoted type attribute of a script or
style tag (it records the embedded content type). -/
def avScriptType (st : State) (s : HStream) : TokOut :=
  if 0 < (s.advanceUntilString st.attributeValueQuote true).1.length then
    ret .attribValue false
      { st with
          embeddedContentType :=
            some (unquote (s.advanceUntilString st.attributeValueQuote true).1),
          kind := .WithinTag, attributeValue := [], attributeValueQuote := [] }
      (s.advanceUntilString st.attributeValueQuote true).2
  else
    fallthroughTok
      { st with attributeValue := (s.advanceUntilString st.attributeValueQuote true).1 }
      (s.advanceUntilString st.attributeValueQuote true).2

/-- State.tokenize of html.ts, with explicit fuel for the two no-advance
self-calls (AttributeName and AttributeValue jump back to WithinTag without
consuming input); fuel 2 is shown to be enough. -/
def tokenizeAux : Nat → State → HStream → TokOut
  | 0, st, s =>
    { type := some .stuck, dontMergeWithPrev := false, nextState := none,
      state := st, stream := s }
  | fuel + 1, st, s =>
    match st.kind with
    | .WithinComment =>
      if (s.advanceUntilString2 strArrowEnd false).1 = true then
        ret .comment false st (s.advanceUntilString2 strArrowEnd false).2
      else if (s.advanceIfString2 strArrowEnd).1 = true then
        ret .delimComment true { st with kind := .Content } (s.advanceIfString2 strArrowEnd).2
      else fallthroughTok st s
    | .WithinDoctype =>
      if (s.advanceUntilString2 strGt false).1 = true then
        ret .doctype false st (s.advanceUntilString2 strGt false).2
      else if (s.advanceIfString2 strGt).1 = true then
        ret .delimDoctype true { st with kind := .Content } (s.advanceIfString2 strGt).2
      else fallthroughTok st s
    | .Content =>
      if (s.advanceIfCharCode2 '<').1 = true then
        tokenizeContentAfterLt st (s.advanceIfCharCode2 '<').2
      else fallthroughTok st s
    | .OpeningEndTag =>
      if 0 < (s.nextElementName).1.length then
        ret (escapeTagName (s.nextElementName).1) false st (s.nextElementName).2
      else if (s.advanceIfString2 strGt).1 = true then
        ret .delimEnd true { st with kind := .Content } (s.advanceIfString2 strGt).2
      else
        ret .empty false st (s.advanceUntilString2 strGt false).2
    | .OpeningStartTag =>
      if 0 < (s.nextElementName).1.length then
        openingStartTagFound st (s.nextElementName).1 (s.nextElementName).2
      else fallthroughTok { st with lastTagName := (s.nextElementName).1 } s
    | .WithinTag =>
      if (s.skipWhitespace2).1 = true ∨ (s.skipWhitespace2).2.eos = true then
        ret .empty false { st with lastAttributeName := some [] } (s.skipWhitespace2).2
      else if st.lastAttributeName = some [] ∧ 0 < (s.nextAttributeName).1.length then
        ret .attribName false
          { st with lastAttributeName := some (s.nextAttributeName).1,
                    kind := .AttributeName } (s.nextAttributeName).2
      else withinTagRest st s
    | .AttributeName =>
      if (s.skipWhitespace2).1 = true ∨ (s.skipWhitespace2).2.eos = true then
        ret .empty false st (s.skipWhitespace2).2
      else if (s.advanceIfCharCode2 '=').1 = true then
        ret .delimAssign false { st with kind := .AttributeValue } (s.advanceIfCharCode2 '=').2
      else
        tokenizeAux fuel { st with kind := .WithinTag, lastAttributeName := some [] } s
    | .AttributeValue =>
      if s.eos = true then ret .empty false st s
      else if (s.skipWhitespace2).1 = true then
        if st.attributeValueQuote = ['"'] ∨ st.attributeValueQuote = ['\''] then
          ret .attribValue false st (s.skipWhitespace2).2
        else ret .empty false st (s.skipWhitespace2).2
      else if st.attributeValueQuote = ['"'] ∨ st.attributeValueQuote = ['\''] then
        if st.attributeValue = st.attributeValueQuote
            ∧ (st.lastTagName = strScript ∨ st.lastTagName = strStyle)
            ∧ st.lastAttributeName = some strType then
          avScriptType st s
        else if (s.advanceIfCharCode2 (st.attributeValueQuote.headD ' ')).1 = true then
          ret .attribValue false
            { st with kind := .WithinTag, attributeValue := [],
                      attributeValueQuote := [], lastAttributeName := none }
            (s.advanceIfCharCode2 (st.attributeValueQuote.headD ' ')).2
        else
          ret .attribValue false
            { st with attributeValue := st.attributeValue ++ [(s.next).1] } (s.next).2
      else if 0 < (s.advanceIfAttrValueRegExp).1.length then
        ret .attribValue false { st with kind := .WithinTag, lastAttributeName := none }
          (s.advanceIfAttrValueRegExp).2
      else if s.peek = '\'' ∨ s.peek = '"' then
        ret .attribValue false
          { st with attributeValueQuote := [s.peek], attributeValue := [s.peek] } s.next2
      else
        tokenizeAux fuel { st with kind := .WithinTag, lastAttributeName := none } s
    | .WithinEmbeddedContent => fallthroughTok st s

/-- State.tokenize: the self-recursion never nests deeper than two calls. -/
def State.tokenize (st : State) (s : HStream) : TokOut := tokenizeAux 2 st s

/-- RAZORState.tokenize of razor.ts: handle the @ entry into C#, otherwise
defer to the inherited html State.tokenize (the state fields are inherited
unchanged from the HTML State). -/
def razorTokenize (st : State) (s : HStream) : TokOut :=
  if s.eos = false ∧ s.peek = '@' then
    if (s.next).2.eos = false ∧ (s.next).2.peek = '*' then
      { type := none, dontMergeWithPrev := false,
        nextState := some (.csComment st '@'), state := st, stream := (s.next).2 }
    else if (s.next).2.eos = true ∨ ¬ (s.next).2.peek = '@' then
      { type := some .embedCS, dontMergeWithPrev := false,
        nextState := some (.csStatement st 0 0 true true true false),
        state := st, stream := (s.next).2 }
    else State.tokenize st (s.next).2
  else State.tokenize st s

/-- HTMLMode.getInitialState: a Content state with every string field empty. -/
def getInitialState : State :=
  { kind := .Content, lastTagName := [], lastAttributeName := some [],
    embeddedContentType := some [], attributeValueQuote := [], attributeValue := [] }

/-- HTMLMode.enterNestedMode: the state is an (HTML) State of kind
WithinEmbeddedContent (in this embedding every state is such a State, so the
instanceof test always holds). -/
def enterNestedMode (state : State) : Bool :=
  decide (state.kind = States.WithinEmbeddedContent)

/-- Repeated tokenization of one line: call State.tokenize while the stream
is not at eos, with an explicit bound on the number of calls. -/
def tokenizeRun : Nat → State → HStream → State × HStream
  | 0, st, s => (st, s)
  | n + 1, st, s =>
    if s.eos = true then (st, s)
    else
      let o := State.tokenize st s
      tokenizeRun n o.state o.stream

/-! ## Leaving a nested mode (HTMLMode.getLeavingNestedModeData) -/

/-- One pattern character of the closing-tag regexp: the tag name is spliced
verbatim into the regexp source, so inside it a dot is the regexp wildcard
(matching anything but a line terminator) and every other element-name
character matches itself case-insensitively. -/
def patCharMatches (p c : Char) : Bool :=
  if p = '.' then !(c = '\n' || c = '\x0d') else charLower p = charLower c

/-- Match the regexp tail \s*> at the front of the text. -/
def wsThenGt : Chars → Bool
  | [] => false
  | c :: t => if c = '>' then true else if isWhitespaceChar c = true then wsThenGt t else false

/-- Match the tag-name part of the pattern followed by \s*>. -/
def matchTagFrom : Chars → Chars → Bool
  | [], r => wsThenGt r
  | _ :: _, [] => false
  | p :: pt, c :: ct => patCharMatches p c && matchTagFrom pt ct

/-- Match the whole pattern <\/tagName\s*> at the front of the text. -/
def matchCloseAt (tag : Chars) : Chars → Bool
  | '<' :: '/' :: r => matchTagFrom tag r
  | _ => false

/-- regexp.exec: the index of the first match of <\/tagName\s*> in the line. -/
def findCloseTag (tag : Chars) : Chars → Option Nat
  | [] => none
  | c :: t => if matchCloseAt tag (c :: t) = true then some 0
              else (findCloseTag tag t).map (· + 1)

/-- ILeavingNestedModeData. -/
structure LeavingNestedModeData where
  nestedModeBuffer : Chars
  bufferAfterNestedMode : Chars
  stateAfterNestedMode : State
deriving DecidableEq

/-- HTMLMode.getLeavingNestedModeData: split the line at the first match of
the closing-tag regexp and reset to a fresh Content state. -/
def getLeavingNestedModeData (line : Chars) (state : State) :
    Option LeavingNestedModeData :=
  match findCloseTag state.lastTagName line with
  | some i =>
    some { nestedModeBuffer := line.take i, bufferAfterNestedMode := line.drop i,
           stateAfterNestedMode := getInitialState }
  | none => none

/-- RAZORMode.getLeavingNestedModeData: the inherited result with the state
after the nested mode replaced by a fresh Razor Content state (which carries
the same field values). -/
def razorGetLeavingNestedModeData (line : Chars) (state : State) :
    Option LeavingNestedModeData :=
  (getLeavingNestedModeData line state).map fun d =>
    { d with stateAfterNestedMode := getInitialState }

/-- The literal reading used by the claim text: the index of the first
case-insensitive occurrence of a literal string in the line. -/
def firstIndexOfCI (pat : Chars) : Chars → Option Nat
  | [] => if pat = [] then some 0 else none
  | c :: t =>
    if lowerChars ((c :: t).take pat.length) = lowerChars pat then some 0
    else (firstIndexOfCI pat t).map (· + 1)

/-- The literal closing tag string of the claim text. -/
def closeTagLiteral (tag : Chars) : Chars := '<' :: '/' :: (tag ++ ['>'])

/-! ## ScrollbarState (abstractScrollbar.ts)

JavaScript numbers are embedded as exact rationals; Math.round and
Math.floor are the Mathlib round (round half towards positive infinity,
as in JavaScript) and Int.floor.  The raw fields are integers because the
constructor and the three setters round every incoming value. -/

/-- The minimal size of the slider (abstractScrollbar.ts line 31). -/
def MINIMUM_SLIDER_SIZE : ℤ := 20

structure ScrollbarState where
  arrowSize : ℤ
  scrollbarSize : ℤ
  oppositeScrollbarSize : ℤ
  visibleSize : ℤ
  scrollSize : ℤ
  scrollPosition : ℤ
  computedAvailableSize : ℤ
  computedRepresentableSize : ℤ
  computedRatio : ℚ
  computedIsNeeded : Bool
  computedSliderSize : ℤ
  computedSliderPosition : ℤ
deriving DecidableEq

/-- computedAvailableSize: max(0, visibleSize - oppositeScrollbarSize). -/
def computedAvailableSizeQ (s : ScrollbarState) : ℚ :=
  max 0 ((s.visibleSize : ℚ) - s.oppositeScrollbarSize)

/-- computedRepresentableSize: max(0, computedAvailableSize - 2 * arrowSize). -/
def computedRepresentableSizeQ (s : ScrollbarState) : ℚ :=
  max 0 (computedAvailableSizeQ s - 2 * s.arrowSize)

/-- computedRatio: scrollSize > 0 ? computedRepresentableSize / scrollSize : 0. -/
def computedRatioQ (s : ScrollbarState) : ℚ :=
  if 0 < (s.scrollSize : ℚ) then computedRepresentableSizeQ s / s.scrollSize else 0

/-- computedIsNeeded: scrollSize > visibleSize. -/
def computedIsNeededB (s : ScrollbarState) : Bool :=
  decide ((s.visibleSize : ℚ) < s.scrollSize)

/-- Slider too close to the bottom: glue it to the bottom. -/
def glueBottom (representable p : ℚ) : ℚ :=
  if representable < p + (MINIMUM_SLIDER_SIZE : ℚ) then
    representable - (MINIMUM_SLIDER_SIZE : ℚ)
  else p

/-- Slider too close to the top: glue it to the top. -/
def glueTop (p : ℚ) : ℚ := if p < 0 then 0 else p

/-- The artificially enlarged slider: minimum size, position moved up by half
the enlargement and then glued to the bottom and to the top of the track. -/
def sliderPairArtificial (representable size0 pos0 : ℚ) : ℚ × ℚ :=
  ((MINIMUM_SLIDER_SIZE : ℚ),
   glueTop (glueBottom representable (pos0 - ((MINIMUM_SLIDER_SIZE : ℚ) - size0) / 2)))

/-- The (size, position) of the slider before the final rounding. -/
def sliderPair (s : ScrollbarState) : ℚ × ℚ :=
  if computedIsNeededB s = false then (computedRepresentableSizeQ s, 0)
  else
    if ((⌊(s.visibleSize : ℚ) * computedRatioQ s⌋ : ℤ) : ℚ) < (MINIMUM_SLIDER_SIZE : ℚ) then
      sliderPairArtificial (computedRepresentableSizeQ s)
        ((⌊(s.visibleSize : ℚ) * computedRatioQ s⌋ : ℤ) : ℚ)
        ((⌊(s.scrollPosition : ℚ) * computedRatioQ s⌋ : ℤ) : ℚ)
    else (((⌊(s.visibleSize : ℚ) * computedRatioQ s⌋ : ℤ) : ℚ),
          ((⌊(s.scrollPosition : ℚ) * computedRatioQ s⌋ : ℤ) : ℚ))

/-- ScrollbarState._refreshComputedValues. -/
def refreshComputedValues (s : ScrollbarState) : ScrollbarState :=
  { s with
    computedAvailableSize := round (computedAvailableSizeQ s)
    computedRepresentableSize := round (computedRepresentableSizeQ s)
    computedRatio := computedRatioQ s
    computedIsNeeded := computedIsNeededB s
    computedSliderSize := round (sliderPair s).1
    computedSliderPosition := round (sliderPair s).2 }

/-- The ScrollbarState constructor. -/
def mkScrollbarState (arrowSize scrollbarSize oppositeScrollbarSize : ℚ) : ScrollbarState :=
  refreshComputedValues
    { arrowSize := round arrowSize
      scrollbarSize := round scrollbarSize
      oppositeScrollbarSize := round oppositeScrollbarSize
      visibleSize := 0
      scrollSize := 0
      scrollPosition := 0
      computedAvailableSize := 0
      computedRepresentableSize := 0
      computedRatio := 1 / 10
      computedIsNeeded := false
      computedSliderSize := 0
      computedSliderPosition := 0 }

/-- ScrollbarState.setVisibleSize. -/
def ScrollbarState.setVisibleSize (s : ScrollbarState) (visibleSize : ℚ) :
    Bool × ScrollbarState :=
  let iVisibleSize := round visibleSize
  if s.visibleSize = iVisibleSize then (false, s)
  else (true, refreshComputedValues { s with visibleSize := iVisibleSize })

/-- ScrollbarState.setScrollSize. -/
def ScrollbarState.setScrollSize (s : ScrollbarState) (scrollSize : ℚ) :
    Bool × ScrollbarState :=
  let iScrollSize := round scrollSize
  if s.scrollSize = iScrollSize then (false, s)
  else (true, refreshComputedValues { s with scrollSize := iScrollSize })

/-- ScrollbarState.setScrollPosition. -/
def ScrollbarState.setScrollPosition (s : ScrollbarState) (scrollPosition : ℚ) :
    Bool × ScrollbarState :=
  let iScrollPosition := round scrollPosition
  if s.scrollPosition = iScrollPosition then (false, s)
  else (true, refreshComputedValues { s with scrollPosition := iScrollPosition })

/-- ScrollbarState.validateScrollPosition: round, clamp from below by 0,
then clamp from above by scrollSize - visibleSize. -/
def ScrollbarState.validateScrollPosition (s : ScrollbarState)
    (desiredScrollPosition : ℚ) : ℤ :=
  let d1 : ℤ := round desiredScrollPosition
  let d2 : ℤ := max d1 0
  min d2 (s.scrollSize - s.visibleSize)

/-- A state whose computed fields agree with its raw fields, i.e. a state as
produced by the constructor or a setter. -/
def ScrollbarState.Refreshed (s : ScrollbarState) : Prop :=
  refreshComputedValues s = s

/-- The slider-inside-the-track property. -/
def sliderInsideTrack (s : ScrollbarState) : Prop :=
  0 ≤ s.computedSliderPosition ∧
  s.computedSliderPosition + s.computedSliderSize ≤ s.computedRepresentableSize

/-! ## ConfigurationService (configurationService.ts)

The service's promise pipeline is embedded with Except over an abstract
rejection value carrying only its JavaScript truthiness; a handler that
falls off its end (returns no value) yields an explicit undefined, modelled
by Option.none, and applying forEach to undefined is the thrown TypeError,
i.e. a rejection.  The helper modules that are not part of the fragment are
modelled from the spec:
- objects.mixin / objects.clone (vs/base/common/objects): merged
  configuration is built by overwriting target keys with source keys, on a
  content-preserving copy of the target;
- model.consolidate / model.newConfigFile (vs/platform/configuration/common/
  model.ts): consolidation merges the workspace config files into one map,
  and parsing of one file body is an abstract parameter;
configuration objects themselves are flat key-value maps. -/

abbrev ConfigMap := List (Chars × Nat)

/-- First binding of a key in a configuration object. -/
def lookupKey : ConfigMap → Chars → Option Nat
  | [], _ => none
  | b :: t, q => if b.1 = q then some b.2 else lookupKey t q

/-- Modelled from the spec: objects.clone used as mixin target — a
content-preserving copy. -/
def objectsClone (m : ConfigMap) : ConfigMap := m

/-- Modelled from the spec: objects.mixin with overwrite — every key of the
source overwrites the target; bindings of the source shadow the target. -/
def objectsMixin (destination source : ConfigMap) : ConfigMap := source ++ destination

/-- Modelled from the spec: model.consolidate — merge the workspace
configuration files into a single configuration object. -/
def consolidate (files : List (Chars × ConfigMap)) : ConfigMap :=
  files.foldl (fun acc f => objectsMixin acc f.2) []

/-- A rejection value, carrying only its JavaScript truthiness (a promise can
be rejected with any value, also a falsy one such as undefined). -/
structure Rejection where
  truthy : Bool
deriving DecidableEq

/-- The stat of the workspace settings root folder (IStat): whether it is a
directory, and the workspace-relative paths of its children. -/
structure WStat where
  isDirectory : Bool
  children : List Chars
deriving DecidableEq

/-- paths.extname(p) === '.json'. -/
def extnameIsJson (p : Chars) : Bool :=
  decide ((p.reverse.take 5).reverse = ['.', 'j', 's', 'o', 'n'])

/-- The first stage of bulkFetchFromWorkspacePromise:
resolveStat(root).then(stat => stat.isDirectory ? resolveContents(json
children) : [], err => { if (err) return []; }).  A falsy rejection makes
the error handler fall off its end, resolving with undefined (none). -/
def bulkFetchStage1 (statOutcome : Except Rejection WStat)
    (resolveContents : List Chars → Except Rejection (List (Chars × Chars))) :
    Except Rejection (Option (List (Chars × Chars))) :=
  match statOutcome with
  | .ok stat =>
    if stat.isDirectory = false then .ok (some [])
    else (resolveContents (stat.children.filter extnameIsJson)).map some
  | .error e => if e.truthy = true then .ok (some []) else .ok none

/-- The second stage: .then(contents => contents.forEach(build map),
errors.onUnexpectedError).  Applying forEach to undefined throws a TypeError,
rejecting the promise; an upstream rejection is swallowed by
onUnexpectedError, leaving the (empty) map as it is. -/
def bulkFetchStage2 (parse : Chars → ConfigMap)
    (x : Except Rejection (Option (List (Chars × Chars)))) :
    Except Rejection (List (Chars × ConfigMap)) :=
  match x with
  | .ok (some contents) => .ok (contents.map fun c => (c.1, parse c.2))
  | .ok none => .error { truthy := true }
  | .error _ => .ok []

/-- ConfigurationService.loadWorkspaceConfiguration on a fresh service (the
per-file promise map starts empty): the bulk fetch followed by joining the
per-file promises. -/
def loadWorkspaceConfiguration (statOutcome : Except Rejection WStat)
    (resolveContents : List Chars → Except Rejection (List (Chars × Chars)))
    (parse : Chars → ConfigMap) :
    Except Rejection (List (Chars × ConfigMap)) :=
  bulkFetchStage2 parse (bulkFetchStage1 statOutcome resolveContents)

/-- The merge step of ConfigurationService.doLoadConfiguration: overwrite a
clone of the global/default contents with the consolidated workspace
contents. -/
def doLoadConfigurationMerged (globals : ConfigMap)
    (values : List (Chars × ConfigMap)) : ConfigMap :=
  objectsMixin (objectsClone globals) (consolidate values)

/-- ConfigurationService.doLoadConfiguration, given the outcome of the
abstract resolvers: the merged configuration, or the propagated rejection. -/
def doLoadConfiguration (globals : ConfigMap) (statOutcome : Except Rejection WStat)
    (resolveContents : List Chars → Except Rejection (List (Chars × Chars)))
    (parse : Chars → ConfigMap) : Except Rejection ConfigMap :=
  (loadWorkspaceConfiguration statOutcome resolveContents parse).map
    (doLoadConfigurationMerged globals)

/-! ## Helper lemmas about the stream operations -/

theorem takeWhile_len_le (p : Char → Bool) (l : Chars) : (l.takeWhile p).length ≤ l.length := by
  induction l with
  | nil => simp
  | cons c t ih =>
    by_cases h : p c = true
    · simpa [List.takeWhile, h] using Nat.succ_le_succ ih
    · simp [List.takeWhile, h]

@[simp] theorem HStream.advance_src (s : HStream) (n : Nat) : (s.advance n).src = s.src := rfl

@[simp] theorem HStream.advance_pos (s : HStream) (n : Nat) : (s.advance n).pos = s.pos + n := rfl

theorem HStream.advance_zero (s : HStream) : s.advance 0 = s := rfl

theorem HStream.rest_advance (s : HStream) (n : Nat) :
    (s.advance n).rest = s.src.drop (s.pos + n) := rfl

theorem eos_false_iff (s : HStream) : s.eos = false ↔ s.pos < s.src.length := by
  simp [HStream.eos]

theorem rest_length (s : HStream) : s.rest.length = s.src.length - s.pos := by
  simp [HStream.rest]

theorem rest_len_pos (s : HStream) (h : s.eos = false) : 0 < s.rest.length := by
  rw [rest_length]
  have := (eos_false_iff s).mp h
  omega

theorem rest_eq_cons (s : HStream) (h : s.eos = false) :
    s.rest = s.peek :: s.rest.tail := by
  have hl := rest_len_pos s h
  cases hr : s.rest with
  | nil => rw [hr] at hl; simp at hl
  | cons a t => simp [HStream.peek, hr]

theorem eos_false_of_rest_cons (s : HStream) {a : Char} {t : Chars}
    (h : s.rest = a :: t) : s.eos = false := by
  rw [eos_false_iff]
  have h1 : s.rest.length = t.length + 1 := by rw [h]; simp
  rw [rest_length] at h1
  omega

theorem peek_of_rest_cons (s : HStream) {a : Char} {t : Chars}
    (h : s.rest = a :: t) : s.peek = a := by
  simp [HStream.peek, h]

theorem findSubstr_eq_zero {w l : Chars} (h : findSubstr w l = some 0) :
    l.take w.length = w := by
  cases l with
  | nil =>
    by_cases hw : w = []
    · simp [hw]
    · simp [findSubstr, hw] at h
  | cons c t =>
    unfold findSubstr at h
    by_cases hc : (c :: t).take w.length = w
    · exact hc
    · simp only [if_neg hc, Option.map_eq_some'] at h
      obtain ⟨y, _, hy⟩ := h
      omega

theorem aicc2_true_snd (s : HStream) (c : Char) (h1 : s.eos = false) (h2 : s.peek = c) :
    s.advanceIfCharCode2 c = (true, s.advance 1) := by
  unfold HStream.advanceIfCharCode2
  rw [if_pos ⟨h1, h2⟩]

theorem aicc2_false (s : HStream) (c : Char) (h : ¬(s.eos = false ∧ s.peek = c)) :
    s.advanceIfCharCode2 c = (false, s) := by
  unfold HStream.advanceIfCharCode2
  rw [if_neg h]

theorem aicc2_pos_le (s : HStream) (c : Char) : s.pos ≤ (s.advanceIfCharCode2 c).2.pos := by
  unfold HStream.advanceIfCharCode2
  split
  · exact Nat.le_add_right _ _
  · exact Nat.le.refl

theorem aicc2_true_elim {s : HStream} {c : Char} (h : (s.advanceIfCharCode2 c).1 = true) :
    (s.advanceIfCharCode2 c).2 = s.advance 1 ∧ s.eos = false ∧ s.peek = c := by
  unfold HStream.advanceIfCharCode2 at h ⊢
  split at h
  · rename_i hc
    rw [if_pos hc]
    exact ⟨rfl, hc⟩
  · simp at h

theorem aicc2_false_elim {s : HStream} {c : Char} (h : (s.advanceIfCharCode2 c).1 = false) :
    (s.advanceIfCharCode2 c).2 = s := by
  unfold HStream.advanceIfCharCode2 at h ⊢
  split at h
  · simp at h
  · rename_i hc
    rw [if_neg hc]

theorem aifs2_true_snd (s : HStream) (w : Chars) (h : s.rest.take w.length = w) :
    s.advanceIfString2 w = (true, s.advance w.length) := by
  unfold HStream.advanceIfString2
  rw [if_pos h]

theorem aifs2_false (s : HStream) (w : Chars) (h : ¬ s.rest.take w.length = w) :
    s.advanceIfString2 w = (false, s) := by
  unfold HStream.advanceIfString2
  rw [if_neg h]

theorem aifs2_true_elim {s : HStream} {w : Chars} (h : (s.advanceIfString2 w).1 = true) :
    (s.advanceIfString2 w).2 = s.advance w.length ∧ s.rest.take w.length = w := by
  unfold HStream.advanceIfString2 at h ⊢
  split at h
  · rename_i hc
    rw [if_pos hc]
    exact ⟨rfl, hc⟩
  · simp at h

theorem aifs2_false_elim {s : HStream} {w : Chars} (h : (s.advanceIfString2 w).1 = false) :
    (s.advanceIfString2 w).2 = s ∧ ¬ s.rest.take w.length = w := by
  unfold HStream.advanceIfString2 at h ⊢
  split at h
  · simp at h
  · rename_i hc
    rw [if_neg hc]
    exact ⟨rfl, hc⟩

theorem aifsci2_true_snd (s : HStream) (w : Chars)
    (h : lowerChars (s.rest.take w.length) = lowerChars w) :
    s.advanceIfStringCaseInsensitive2 w = (true, s.advance w.length) := by
  unfold HStream.advanceIfStringCaseInsensitive2
  rw [if_pos h]

theorem aifsci2_false (s : HStream) (w : Chars)
    (h : ¬ lowerChars (s.rest.take w.length) = lowerChars w) :
    s.advanceIfStringCaseInsensitive2 w = (false, s) := by
  unfold HStream.advanceIfStringCaseInsensitive2
  rw [if_neg h]

theorem untilString_guard {s : HStream} {w : Chars} (i : Bool)
    (hg : s.eos = true ∨ w = []) : s.advanceUntilString w i = ([], s) := by
  unfold HStream.advanceUntilString
  rw [if_pos hg]

theorem untilString_found {s : HStream} {w : Chars} (i : Bool) {idx : Nat}
    (hg : ¬ (s.eos = true ∨ w = [])) (hf : findSubstr w s.rest = some idx) :
    s.advanceUntilString w i =
      (s.rest.take (if i = true then idx + w.length else idx),
       s.advance (if i = true then idx + w.length else idx)) := by
  unfold HStream.advanceUntilString
  rw [if_neg hg, hf]

theorem untilString_found_incl {s : HStream} {w : Chars} {idx : Nat}
    (hg : ¬ (s.eos = true ∨ w = [])) (hf : findSubstr w s.rest = some idx) :
    s.advanceUntilString w true =
      (s.rest.take (idx + w.length), s.advance (idx + w.length)) := by
  unfold HStream.advanceUntilString
  rw [if_neg hg, hf]
  rfl

theorem untilString_notfound {s : HStream} {w : Chars} (i : Bool)
    (hg : ¬ (s.eos = true ∨ w = [])) (hf : findSubstr w s.rest = none) :
    s.advanceUntilString w i = (s.rest, s.advance s.rest.length) := by
  unfold HStream.advanceUntilString
  rw [if_neg hg, hf]

theorem until2_fst (s : HStream) (w : Chars) (i : Bool) :
    (s.advanceUntilString2 w i).1 = decide (0 < (s.advanceUntilString w i).1.length) := rfl

theorem until2_snd (s : HStream) (w : Chars) (i : Bool) :
    (s.advanceUntilString2 w i).2 = (s.advanceUntilString w i).2 := rfl

theorem until2_true_pos {s : HStream} {w : Chars} {i : Bool}
    (h : (s.advanceUntilString2 w i).1 = true) :
    s.pos < (s.advanceUntilString2 w i).2.pos := by
  rw [until2_fst] at h
  rw [until2_snd]
  simp only [decide_eq_true_eq] at h
  by_cases hg : s.eos = true ∨ w = []
  · rw [untilString_guard i hg] at h
    simp at h
  · cases hf : findSubstr w s.rest with
    | some idx =>
      rw [untilString_found i hg hf] at h ⊢
      simp only [List.length_take] at h
      simp only [HStream.advance_pos]
      omega
    | none =>
      rw [untilString_notfound i hg hf] at h ⊢
      dsimp only [] at h ⊢
      simp only [HStream.advance_pos]
      omega

theorem until2_pos_le (s : HStream) (w : Chars) (i : Bool) :
    s.pos ≤ (s.advanceUntilString2 w i).2.pos := by
  rw [until2_snd]
  by_cases hg : s.eos = true ∨ w = []
  · rw [untilString_guard i hg]
  · cases hf : findSubstr w s.rest with
    | some idx =>
      rw [untilString_found i hg hf]
      simp
    | none =>
      rw [untilString_notfound i hg hf]
      simp

theorem until2_false_snd {s : HStream} {w : Chars} {i : Bool}
    (h : (s.advanceUntilString2 w i).1 = false) :
    (s.advanceUntilString2 w i).2 = s := by
  rw [until2_fst] at h
  rw [until2_snd]
  simp only [decide_eq_false_iff_not, Nat.not_lt, Nat.le_zero] at h
  by_cases hg : s.eos = true ∨ w = []
  · rw [untilString_guard i hg]
  · have he : s.eos = false := by
      rcases not_or.mp hg with ⟨he, _⟩
      simpa using he
    have hr := rest_len_pos s he
    cases hf : findSubstr w s.rest with
    | some idx =>
      rw [untilString_found i hg hf] at h ⊢
      simp only [List.length_take] at h
      have hk : (if i = true then idx + w.length else idx) = 0 := by omega
      rw [hk, HStream.advance_zero]
    | none =>
      rw [untilString_notfound i hg hf] at h
      dsimp only [] at h
      omega

theorem until2_false_take {s : HStream} {w : Chars}
    (he : s.eos = false) (hw : w ≠ [])
    (h : (s.advanceUntilString2 w false).1 = false) :
    s.rest.take w.length = w := by
  rw [until2_fst] at h
  simp only [decide_eq_false_iff_not, Nat.not_lt, Nat.le_zero] at h
  have hg : ¬ (s.eos = true ∨ w = []) := by rw [he]; simp [hw]
  have hr := rest_len_pos s he
  cases hf : findSubstr w s.rest with
  | some idx =>
    rw [untilString_found false hg hf] at h
    simp only [List.length_take] at h
    have hidx : idx = 0 := by
      simp only [if_neg (by simp : ¬ false = true)] at h
      omega
    exact findSubstr_eq_zero (hidx ▸ hf)
  | none =>
    rw [untilString_notfound false hg hf] at h
    dsimp only [] at h
    omega

theorem untilString_incl_pos (s : HStream) (w : Chars)
    (he : s.eos = false) (hw : w ≠ []) :
    s.pos < (s.advanceUntilString w true).2.pos ∧
      0 < (s.advanceUntilString w true).1.length := by
  have hg : ¬ (s.eos = true ∨ w = []) := by rw [he]; simp [hw]
  have hr := rest_len_pos s he
  have hwl : 0 < w.length := List.length_pos.mpr hw
  cases hf : findSubstr w s.rest with
  | some idx =>
    rw [untilString_found_incl hg hf]
    refine ⟨?_, ?_⟩
    · show s.pos < (s.advance (idx + w.length)).pos
      simp only [HStream.advance_pos]
      omega
    · show 0 < (s.rest.take (idx + w.length)).length
      simp only [List.length_take]
      omega
  | none =>
    rw [untilString_notfound true hg hf]
    refine ⟨?_, ?_⟩
    · show s.pos < (s.advance s.rest.length).pos
      simp only [HStream.advance_pos]
      omega
    · show 0 < s.rest.length
      omega

theorem skip_fst (s : HStream) :
    (s.skipWhitespace2).1 = decide (0 < (s.rest.takeWhile isWhitespaceChar).length) := rfl

theorem skip_snd (s : HStream) :
    (s.skipWhitespace2).2 = s.advance (s.rest.takeWhile isWhitespaceChar).length := rfl

theorem skip_true_pos {s : HStream} (h : (s.skipWhitespace2).1 = true) :
    s.pos < (s.skipWhitespace2).2.pos := by
  rw [skip_fst] at h
  rw [skip_snd]
  simp only [decide_eq_true_eq] at h
  simp only [HStream.advance_pos]
  omega

theorem skip_pos_le (s : HStream) : s.pos ≤ (s.skipWhitespace2).2.pos := by
  rw [skip_snd]
  simp

theorem skip_false_snd {s : HStream} (h : (s.skipWhitespace2).1 = false) :
    (s.skipWhitespace2).2 = s := by
  rw [skip_fst] at h
  rw [skip_snd]
  simp only [decide_eq_false_iff_not, Nat.not_lt, Nat.le_zero] at h
  rw [h, HStream.advance_zero]

theorem skip_false_of_peek {s : HStream} (he : s.eos = false)
    (h : isWhitespaceChar s.peek = false) : (s.skipWhitespace2).1 = false := by
  rw [skip_fst]
  rw [rest_eq_cons s he]
  simp [List.takeWhile, h]

theorem nEN_eq_true (s : HStream) (hc : s.eos = false ∧ isElemStart s.peek = true) :
    s.nextElementName =
      (lowerChars (s.rest.take ((s.rest.tail.takeWhile isElemRest).length + 1)),
       s.advance ((s.rest.tail.takeWhile isElemRest).length + 1)) := by
  unfold HStream.nextElementName
  rw [if_pos hc]

theorem nEN_eq_false (s : HStream) (hc : ¬ (s.eos = false ∧ isElemStart s.peek = true)) :
    s.nextElementName = ([], s) := by
  unfold HStream.nextElementName
  rw [if_neg hc]

theorem nEN_true_pos {s : HStream} (h : 0 < (s.nextElementName).1.length) :
    s.pos < (s.nextElementName).2.pos := by
  by_cases hc : s.eos = false ∧ isElemStart s.peek = true
  · rw [nEN_eq_true s hc]
    simp only [HStream.advance_pos]
    omega
  · rw [nEN_eq_false s hc] at h
    simp at h

theorem nEN_false_snd {s : HStream} (h : ¬ 0 < (s.nextElementName).1.length) :
    (s.nextElementName).2 = s := by
  by_cases hc : s.eos = false ∧ isElemStart s.peek = true
  · exfalso
    apply h
    rw [nEN_eq_true s hc]
    have hlen : 0 < s.rest.length := rest_len_pos s hc.1
    have hle := takeWhile_len_le isElemRest s.rest.tail
    have htl : s.rest.tail.length = s.rest.length - 1 := by
      cases s.rest <;> simp
    simp only [lowerChars, List.length_map, List.length_take]
    omega
  · rw [nEN_eq_false s hc]

theorem nAN_fst_len (s : HStream) :
    (s.nextAttributeName).1.length = (s.rest.takeWhile isAttrNameChar).length := by
  unfold HStream.nextAttributeName
  simp only [lowerChars, List.length_map, List.length_take]
  have := takeWhile_len_le isAttrNameChar s.rest
  omega

theorem nAN_snd (s : HStream) :
    (s.nextAttributeName).2 = s.advance (s.rest.takeWhile isAttrNameChar).length := rfl

theorem nAN_true_pos {s : HStream} (h : 0 < (s.nextAttributeName).1.length) :
    s.pos < (s.nextAttributeName).2.pos := by
  rw [nAN_fst_len] at h
  rw [nAN_snd]
  simp only [HStream.advance_pos]
  omega

theorem nAN_false_snd {s : HStream} (h : ¬ 0 < (s.nextAttributeName).1.length) :
    (s.nextAttributeName).2 = s := by
  rw [nAN_fst_len] at h
  rw [nAN_snd]
  have h0 : (s.rest.takeWhile isAttrNameChar).length = 0 := by omega
  rw [h0, HStream.advance_zero]

theorem aavr_fst_len (s : HStream) :
    (s.advanceIfAttrValueRegExp).1.length = (s.rest.takeWhile isAttrValueChar).length := by
  unfold HStream.advanceIfAttrValueRegExp
  simp only [List.length_take]
  have := takeWhile_len_le isAttrValueChar s.rest
  omega

theorem aavr_snd (s : HStream) :
    (s.advanceIfAttrValueRegExp).2 = s.advance (s.rest.takeWhile isAttrValueChar).length := rfl

theorem aavr_true_pos {s : HStream} (h : 0 < (s.advanceIfAttrValueRegExp).1.length) :
    s.pos < (s.advanceIfAttrValueRegExp).2.pos := by
  rw [aavr_fst_len] at h
  rw [aavr_snd]
  simp only [HStream.advance_pos]
  omega

theorem next_snd_pos (s : HStream) : (s.next).2.pos = s.pos + 1 := rfl

theorem next2_pos (s : HStream) : s.next2.pos = s.pos + 1 := rfl

/-! ## Progress of the tokenizer (claim C2 groundwork) -/

@[simp] theorem ret_stream (t : TokenType) (d : Bool) (st : State) (s : HStream) :
    (ret t d st s).stream = s := rfl

@[simp] theorem ret_state (t : TokenType) (d : Bool) (st : State) (s : HStream) :
    (ret t d st s).state = st := rfl

@[simp] theorem ret_type (t : TokenType) (d : Bool) (st : State) (s : HStream) :
    (ret t d st s).type = some t := rfl

@[simp] theorem fallthroughTok_stream (st : State) (s : HStream) :
    (fallthroughTok st s).stream = s.next2 := rfl

@[simp] theorem fallthroughTok_state (st : State) (s : HStream) :
    (fallthroughTok st s).state = { st with kind := .Content } := rfl

theorem progress_fallthrough (st : State) (s : HStream) :
    s.pos < (fallthroughTok st s).stream.pos := by
  rw [fallthroughTok_stream, next2_pos]
  omega

theorem progress_withinTagRest (st : State) (s : HStream) (_he : s.eos = false) :
    s.pos < (withinTagRest st s).stream.pos := by
  unfold withinTagRest
  split
  · rename_i h
    obtain ⟨h2, _⟩ := aifs2_true_elim h
    rw [ret_stream, h2]
    simp only [strSlashGt, List.length_cons, List.length_nil, HStream.advance_pos]
    omega
  · split
    · rename_i h1 h2
      obtain ⟨h3, _, _⟩ := aicc2_true_elim h2
      split
      · rw [ret_stream, h3]
        simp only [HStream.advance_pos]
        omega
      · rw [ret_stream, h3]
        simp only [HStream.advance_pos]
        omega
    · rw [ret_stream, next2_pos]
      omega

theorem progress_afterLtSlash (st : State) (s0 s : HStream) (hle : s0.pos ≤ s.pos) :
    s0.pos ≤ (afterLtSlash st s).stream.pos := by
  unfold afterLtSlash
  split
  · rename_i h
    obtain ⟨h2, _, _⟩ := aicc2_true_elim h
    rw [ret_stream, h2]
    simp only [HStream.advance_pos]
    omega
  · rw [ret_stream]
    exact hle

theorem progress_contentAfterLt (st : State) (s0 s : HStream) (hle : s0.pos ≤ s.pos) :
    s0.pos ≤ (tokenizeContentAfterLt st s).stream.pos := by
  unfold tokenizeContentAfterLt
  split
  · split
    · rename_i h
      obtain ⟨h2, _⟩ := aifs2_true_elim h
      rw [ret_stream, h2]
      simp only [HStream.advance_pos]
      omega
    · split
      · rename_i h
        unfold HStream.advanceIfStringCaseInsensitive2 at h ⊢
        split at h
        · rename_i hc
          rw [if_pos hc, ret_stream]
          simp only [HStream.advance_pos]
          omega
        · simp at h
      · exact progress_afterLtSlash st s0 s hle
  · exact progress_afterLtSlash st s0 s hle

theorem progress_withinTag (fuel : Nat) (st : State) (s : HStream)
    (hk : st.kind = States.WithinTag) (he : s.eos = false) :
    s.pos < (tokenizeAux (fuel + 1) st s).stream.pos := by
  simp only [tokenizeAux, hk]
  split
  · rename_i h
    rcases h with h | h
    · rw [ret_stream]
      exact skip_true_pos h
    · by_cases hb : (s.skipWhitespace2).1 = true
      · rw [ret_stream]
        exact skip_true_pos hb
      · have hs := skip_false_snd (by simpa using hb)
        rw [hs, he] at h
        exact absurd h (by simp)
  · split
    · rename_i h1 h
      rw [ret_stream]
      exact nAN_true_pos h.2
    · exact progress_withinTagRest st s he

@[simp] theorem openingStartTagFound_stream (st : State) (name : Chars) (s : HStream) :
    (openingStartTagFound st name s).stream = s := rfl

theorem tokenize_progress (st : State) (s : HStream) (he : s.eos = false) :
    s.pos < (State.tokenize st s).stream.pos := by
  unfold State.tokenize
  cases hk : st.kind
  case Content =>
    simp only [tokenizeAux, hk]
    split
    · rename_i h
      obtain ⟨h2, _, _⟩ := aicc2_true_elim h
      rw [h2]
      have h3 := progress_contentAfterLt st (s.advance 1) (s.advance 1) Nat.le.refl
      simp only [HStream.advance_pos] at h3
      omega
    · exact progress_fallthrough st s
  case WithinComment =>
    simp only [tokenizeAux, hk]
    split
    · rename_i h
      rw [ret_stream]
      exact until2_true_pos h
    · split
      · rename_i h1 h2
        obtain ⟨h3, _⟩ := aifs2_true_elim h2
        rw [ret_stream, h3]
        simp only [strArrowEnd, List.length_cons, List.length_nil, HStream.advance_pos]
        omega
      · exact progress_fallthrough st s
  case WithinDoctype =>
    simp only [tokenizeAux, hk]
    split
    · rename_i h
      rw [ret_stream]
      exact until2_true_pos h
    · split
      · rename_i h1 h2
        obtain ⟨h3, _⟩ := aifs2_true_elim h2
        rw [ret_stream, h3]
        simp only [strGt, List.length_cons, List.length_nil, HStream.advance_pos]
        omega
      · exact progress_fallthrough st s
  case OpeningEndTag =>
    simp only [tokenizeAux, hk]
    split
    · rename_i h
      rw [ret_stream]
      exact nEN_true_pos h
    · split
      · rename_i h1 h2
        obtain ⟨h3, _⟩ := aifs2_true_elim h2
        rw [ret_stream, h3]
        simp only [strGt, List.length_cons, List.length_nil, HStream.advance_pos]
        omega
      · rename_i h1 h2
        by_cases hu : (s.advanceUntilString2 strGt false).1 = true
        · rw [ret_stream]
          exact until2_true_pos hu
        · exfalso
          have ht := until2_false_take (w := strGt) he (by simp [strGt]) (by simpa using hu)
          obtain ⟨_, hne⟩ := aifs2_false_elim (s := s) (w := strGt) (by simpa using h2)
          exact hne ht
  case OpeningStartTag =>
    simp only [tokenizeAux, hk]
    split
    · rename_i h
      rw [openingStartTagFound_stream]
      exact nEN_true_pos h
    · exact progress_fallthrough _ s
  case WithinTag =>
    exact progress_withinTag 1 st s hk he
  case AttributeName =>
    rw [tokenizeAux.eq_2, hk]
    dsimp only []
    split
    · rename_i h
      rcases h with h | h
      · rw [ret_stream]
        exact skip_true_pos h
      · by_cases hb : (s.skipWhitespace2).1 = true
        · rw [ret_stream]
          exact skip_true_pos hb
        · have hs := skip_false_snd (by simpa using hb)
          rw [hs, he] at h
          exact absurd h (by simp)
    · split
      · rename_i h1 h2
        obtain ⟨h3, _, _⟩ := aicc2_true_elim h2
        rw [ret_stream, h3]
        simp only [HStream.advance_pos]
        omega
      · exact progress_withinTag 0
          { st with kind := .WithinTag, lastAttributeName := some [] } s rfl he
  case AttributeValue =>
    rw [tokenizeAux.eq_2, hk]
    dsimp only []
    split
    · rename_i h
      rw [he] at h
      exact absurd h (by simp)
    · split
      · rename_i h1 h2
        split
        · rw [ret_stream]
          exact skip_true_pos h2
        · rw [ret_stream]
          exact skip_true_pos h2
      · split
        · rename_i h1 h2 hq
          split
          · unfold avScriptType
            have hw : st.attributeValueQuote ≠ [] := by
              rcases hq with hq | hq <;> simp [hq]
            have hp := (untilString_incl_pos s st.attributeValueQuote he hw).1
            split
            · rw [ret_stream]
              exact hp
            · rw [fallthroughTok_stream, next2_pos]
              omega
          · split
            · rename_i h3
              obtain ⟨h4, _, _⟩ := aicc2_true_elim h3
              rw [ret_stream, h4]
              simp only [HStream.advance_pos]
              omega
            · rw [ret_stream, next_snd_pos]
              omega
        · split
          · rename_i h3
            rw [ret_stream]
            exact aavr_true_pos h3
          · split
            · rw [ret_stream, next2_pos]
              omega
            · exact progress_withinTag 0
                { st with kind := .WithinTag, lastAttributeName := none } s rfl he
  case WithinEmbeddedContent =>
    simp only [tokenizeAux, hk]
    exact progress_fallthrough st s

@[simp] theorem aicc2_snd_src (s : HStream) (c : Char) :
    (s.advanceIfCharCode2 c).2.src = s.src := by
  unfold HStream.advanceIfCharCode2
  split <;> rfl

@[simp] theorem aifs2_snd_src (s : HStream) (w : Chars) :
    (s.advanceIfString2 w).2.src = s.src := by
  unfold HStream.advanceIfString2
  split <;> rfl

@[simp] theorem aifsci2_snd_src (s : HStream) (w : Chars) :
    (s.advanceIfStringCaseInsensitive2 w).2.src = s.src := by
  unfold HStream.advanceIfStringCaseInsensitive2
  split <;> rfl

@[simp] theorem untilString_snd_src (s : HStream) (w : Chars) (i : Bool) :
    (s.advanceUntilString w i).2.src = s.src := by
  unfold HStream.advanceUntilString
  split
  · rfl
  · split <;> rfl

@[simp] theorem until2_snd_src (s : HStream) (w : Chars) (i : Bool) :
    (s.advanceUntilString2 w i).2.src = s.src := by
  rw [until2_snd]
  exact untilString_snd_src s w i

@[simp] theorem skip_snd_src (s : HStream) : (s.skipWhitespace2).2.src = s.src := rfl

@[simp] theorem nEN_snd_src (s : HStream) : (s.nextElementName).2.src = s.src := by
  unfold HStream.nextElementName
  split <;> rfl

@[simp] theorem nAN_snd_src (s : HStream) : (s.nextAttributeName).2.src = s.src := rfl

@[simp] theorem aavr_snd_src (s : HStream) : (s.advanceIfAttrValueRegExp).2.src = s.src := rfl

@[simp] theorem next_snd_src (s : HStream) : (s.next).2.src = s.src := rfl

@[simp] theorem next2_src (s : HStream) : s.next2.src = s.src := rfl

theorem withinTagRest_src (st : State) (s : HStream) :
    (withinTagRest st s).stream.src = s.src := by
  unfold withinTagRest
  split
  · simp
  · split
    · split <;> simp
    · simp

theorem afterLtSlash_src (st : State) (s : HStream) :
    (afterLtSlash st s).stream.src = s.src := by
  unfold afterLtSlash
  split <;> simp

theorem contentAfterLt_src (st : State) (s : HStream) :
    (tokenizeContentAfterLt st s).stream.src = s.src := by
  unfold tokenizeContentAfterLt
  split
  · split
    · simp
    · split
      · simp
      · exact afterLtSlash_src st s
  · exact afterLtSlash_src st s

theorem avScriptType_src (st : State) (s : HStream) :
    (avScriptType st s).stream.src = s.src := by
  unfold avScriptType
  split <;> simp

theorem tokenizeAux_withinTag_src (fuel : Nat) (st : State) (s : HStream)
    (hk : st.kind = States.WithinTag) :
    (tokenizeAux (fuel + 1) st s).stream.src = s.src := by
  rw [tokenizeAux.eq_2, hk]
  dsimp only []
  split
  · simp
  · split
    · simp
    · exact withinTagRest_src st s

theorem tokenize_src (st : State) (s : HStream) :
    (State.tokenize st s).stream.src = s.src := by
  unfold State.tokenize
  cases hk : st.kind
  case Content =>
    rw [tokenizeAux.eq_2, hk]
    dsimp only []
    split
    · rename_i h
      obtain ⟨h2, _, _⟩ := aicc2_true_elim h
      rw [h2]
      have := contentAfterLt_src st (s.advance 1)
      simpa using this
    · simp
  case WithinComment =>
    rw [tokenizeAux.eq_2, hk]
    dsimp only []
    split
    · simp
    · split <;> simp
  case WithinDoctype =>
    rw [tokenizeAux.eq_2, hk]
    dsimp only []
    split
    · simp
    · split <;> simp
  case OpeningEndTag =>
    rw [tokenizeAux.eq_2, hk]
    dsimp only []
    split
    · simp
    · split <;> simp
  case OpeningStartTag =>
    rw [tokenizeAux.eq_2, hk]
    dsimp only []
    split
    · show (openingStartTagFound st (s.nextElementName).1 (s.nextElementName).2).stream.src = s.src
      rw [openingStartTagFound_stream]
      simp
    · simp
  case WithinTag =>
    exact tokenizeAux_withinTag_src 1 st s hk
  case AttributeName =>
    rw [tokenizeAux.eq_2, hk]
    dsimp only []
    split
    · simp
    · split
      · simp
      · exact tokenizeAux_withinTag_src 0 _ s rfl
  case AttributeValue =>
    rw [tokenizeAux.eq_2, hk]
    dsimp only []
    split
    · simp
    · split
      · split <;> simp
      · split
        · split
          · exact avScriptType_src st s
          · split <;> simp
        · split
          · simp
          · split
            · simp
            · exact tokenizeAux_withinTag_src 0 _ s rfl
  case WithinEmbeddedContent =>
    rw [tokenizeAux.eq_2, hk]
    dsimp only []
    simp

theorem tokenizeAux_withinTag_fuel (m n : Nat) (st : State) (s : HStream)
    (hk : st.kind = States.WithinTag) :
    tokenizeAux (m + 1) st s = tokenizeAux (n + 1) st s := by
  conv_lhs => rw [tokenizeAux.eq_2]
  conv_rhs => rw [tokenizeAux.eq_2]
  rw [hk]

theorem tokenizeAux_fuel (n : Nat) (st : State) (s : HStream) :
    tokenizeAux (n + 2) st s = tokenizeAux 2 st s := by
  conv_lhs => rw [tokenizeAux.eq_2]
  conv_rhs => rw [tokenizeAux.eq_2]
  cases hk : st.kind <;> dsimp only []
  case AttributeName =>
    split
    · rfl
    · split
      · rfl
      · exact tokenizeAux_withinTag_fuel n 0 _ s rfl
  case AttributeValue =>
    split
    · rfl
    · split
      · rfl
      · split
        · rfl
        · split
          · rfl
          · split
            · rfl
            · exact tokenizeAux_withinTag_fuel n 0 _ s rfl

theorem tokenizeRun_eos : ∀ (fuel : Nat) (st : State) (s : HStream),
    s.src.length - s.pos ≤ fuel → (tokenizeRun fuel st s).2.eos = true := by
  intro fuel
  induction fuel with
  | zero =>
    intro st s h
    show s.eos = true
    simp only [HStream.eos, decide_eq_true_eq]
    omega
  | succ n ih =>
    intro st s h
    rw [tokenizeRun]
    split
    · rename_i hE
      exact hE
    · rename_i hE
      have he : s.eos = false := by simpa using hE
      have hp := tokenize_progress st s he
      apply ih
      have hsrc := tokenize_src st s
      rw [hsrc]
      omega

/-! ## Claim theorems -/

/-- Claim C2: on every stream that is not at end-of-stream, one call to
State.tokenize (from any of the nine states) advances the position by at
least one character; fuel 2 is enough for the internal self-recursion (the
no-advance jumps from AttributeName and AttributeValue back to WithinTag),
i.e. the recursion nests at most two calls deep; and repeatedly calling
State.tokenize on a finite line terminates: after at most
src.length - pos calls the stream is at end-of-stream. -/
theorem claim_C2_progress_depth_termination (st : State) (s : HStream) :
    (s.eos = false → s.pos < (State.tokenize st s).stream.pos)
    ∧ (∀ n : Nat, 2 ≤ n → tokenizeAux n st s = State.tokenize st s)
    ∧ (∀ fuel : Nat, s.src.length - s.pos ≤ fuel →
        (tokenizeRun fuel st s).2.eos = true) := by
  refine ⟨tokenize_progress st s, ?_, fun fuel h => tokenizeRun_eos fuel st s h⟩
  intro n hn
  obtain ⟨m, rfl⟩ : ∃ m, n = m + 2 := ⟨n - 2, by omega⟩
  exact tokenizeAux_fuel m st s

theorem claim_C2_witness :
    ((⟨['a'], 0⟩ : HStream).eos = false
      ∧ 0 < (State.tokenize getInitialState ⟨['a'], 0⟩).stream.pos)
    ∧ (2 ≤ 5 ∧ tokenizeAux 5 getInitialState ⟨['a'], 0⟩
        = State.tokenize getInitialState ⟨['a'], 0⟩)
    ∧ ((⟨['a'], 0⟩ : HStream).src.length - (⟨['a'], 0⟩ : HStream).pos ≤ 1
      ∧ (tokenizeRun 1 getInitialState ⟨['a'], 0⟩).2.eos = true) :=
  ⟨⟨by decide,
    (claim_C2_progress_depth_termination getInitialState ⟨['a'], 0⟩).1 (by decide)⟩,
   ⟨by decide,
    (claim_C2_progress_depth_termination getInitialState ⟨['a'], 0⟩).2.1 5 (by decide)⟩,
   ⟨by decide,
    (claim_C2_progress_depth_termination getInitialState ⟨['a'], 0⟩).2.2 1 (by decide)⟩⟩

/-- Claim C3: Razor refines HTML — on every stream that is at end-of-stream
or whose next character is not the at sign, RAZORState.tokenize returns
exactly the result of the inherited HTML State.tokenize on the same stream
and the same state fields (so the Razor tokenizer can differ from the HTML
tokenizer only on streams whose next character is the at sign). -/
theorem claim_C3_razor_refines_html (st : State) (s : HStream)
    (h : s.eos = true ∨ s.peek ≠ '@') :
    razorTokenize st s = State.tokenize st s := by
  unfold razorTokenize
  have hc : ¬ (s.eos = false ∧ s.peek = '@') := by
    rintro ⟨h1, h2⟩
    rcases h with h | h
    · rw [h] at h1
      exact absurd h1 (by simp)
    · exact h h2
  rw [if_neg hc]

theorem claim_C3_witness :
    ((⟨['x'], 0⟩ : HStream).eos = true ∨ (⟨['x'], 0⟩ : HStream).peek ≠ '@')
    ∧ razorTokenize getInitialState ⟨['x'], 0⟩
        = State.tokenize getInitialState ⟨['x'], 0⟩ :=
  ⟨Or.inr (by decide),
   claim_C3_razor_refines_html getInitialState ⟨['x'], 0⟩ (Or.inr (by decide))⟩

/-- Claim C4: tokenizing a > character in a WithinTag state returns
DELIM_START, consumes exactly that character, and moves the state kind to
WithinEmbeddedContent exactly when lastTagName is script or style (and to
Content otherwise); and HTMLMode.enterNestedMode holds exactly on states of
kind WithinEmbeddedContent. -/
theorem claim_C4_embedded_content_entry (st : State) (s : HStream)
    (hk : st.kind = States.WithinTag) (he : s.eos = false) (hp : s.peek = '>') :
    ((State.tokenize st s).type = some TokenType.delimStart
      ∧ (State.tokenize st s).stream.pos = s.pos + 1
      ∧ ((State.tokenize st s).state.kind = States.WithinEmbeddedContent ↔
          (st.lastTagName = strScript ∨ st.lastTagName = strStyle))
      ∧ (¬ (st.lastTagName = strScript ∨ st.lastTagName = strStyle) →
          (State.tokenize st s).state.kind = States.Content))
    ∧ (∀ st' : State, enterNestedMode st' = true ↔
        st'.kind = States.WithinEmbeddedContent) := by
  have hskip1 : (s.skipWhitespace2).1 = false :=
    skip_false_of_peek he (by rw [hp]; rfl)
  have hskip2 := skip_false_snd hskip1
  have hrest := rest_eq_cons s he
  rw [hp] at hrest
  have hnan : (s.nextAttributeName).1.length = 0 := by
    rw [nAN_fst_len, hrest]
    simp [List.takeWhile, show isAttrNameChar '>' = false from rfl]
  have hred : State.tokenize st s = withinTagRest st s := by
    unfold State.tokenize
    rw [tokenizeAux.eq_2, hk]
    dsimp only []
    rw [if_neg ?_, if_neg ?_]
    · rintro ⟨_, hl⟩
      omega
    · rintro (h1 | h1)
      · rw [hskip1] at h1
        exact absurd h1 (by simp)
      · rw [hskip2, he] at h1
        exact absurd h1 (by simp)
  have hsg : ¬ s.rest.take strSlashGt.length = strSlashGt := by
    rw [hrest]
    simp [strSlashGt]
  have h2 : State.tokenize st s =
      if st.lastTagName ∈ tagsEmbeddingContent then
        ret .delimStart true { st with kind := .WithinEmbeddedContent } (s.advance 1)
      else ret .delimStart true { st with kind := .Content } (s.advance 1) := by
    rw [hred]
    unfold withinTagRest
    rw [aifs2_false s strSlashGt hsg, aicc2_true_snd s '>' he hp]
    dsimp only []
    rw [if_neg (by simp : ¬ false = true), if_pos rfl]
  have hmem : st.lastTagName ∈ tagsEmbeddingContent ↔
      (st.lastTagName = strScript ∨ st.lastTagName = strStyle) := by
    simp [tagsEmbeddingContent]
  refine ⟨?_, fun st' => by unfold enterNestedMode; simp⟩
  by_cases hm : st.lastTagName ∈ tagsEmbeddingContent
  · rw [h2, if_pos hm]
    refine ⟨rfl, by simp, ?_, ?_⟩
    · simp only [ret_state]
      constructor
      · intro _
        exact hmem.mp hm
      · intro _
        trivial
    · intro hns
      exact absurd (hmem.mp hm) hns
  · rw [h2, if_neg hm]
    refine ⟨rfl, by simp, ?_, fun _ => rfl⟩
    simp only [ret_state]
    constructor
    · intro hcontra
      exact absurd hcontra (by simp)
    · intro hss
      exact absurd (hmem.mpr hss) hm

def c4State : State :=
  { getInitialState with kind := .WithinTag, lastTagName := strScript }

def c4Stream : HStream := { src := ['>', 'x'], pos := 0 }

theorem claim_C4_witness :
    (c4State.kind = States.WithinTag ∧ c4Stream.eos = false ∧ c4Stream.peek = '>')
    ∧ (State.tokenize c4State c4Stream).type = some TokenType.delimStart
    ∧ (State.tokenize c4State c4Stream).state.kind = States.WithinEmbeddedContent
    ∧ enterNestedMode (State.tokenize c4State c4Stream).state = true := by
  have h := claim_C4_embedded_content_entry c4State c4Stream rfl (by decide) (by decide)
  refine ⟨⟨rfl, by decide, by decide⟩, h.1.1, ?_, ?_⟩
  · exact h.1.2.2.1.mpr (Or.inl rfl)
  · exact (h.2 (State.tokenize c4State c4Stream).state).mpr (h.1.2.2.1.mpr (Or.inl rfl))

/-- Only the exclamation mark lower-cases to an exclamation mark. -/
theorem charLower_eq_bang {c : Char} (h : charLower c = '!') : c = '!' := by
  unfold charLower at h
  split at h
  all_goals first
    | exact absurd h (by decide)
    | exact h

theorem take_three_shape {l : Chars} {a b c : Char} (h : l.take 3 = [a, b, c]) :
    ∃ t, l = a :: b :: c :: t := by
  rcases l with _ | ⟨x, l⟩
  · simp at h
  rcases l with _ | ⟨y, l⟩
  · simp at h
  rcases l with _ | ⟨z, l⟩
  · simp at h
  simp only [List.take_succ_cons, List.take_zero] at h
  obtain ⟨rfl, rfl, rfl⟩ : x = a ∧ y = b ∧ z = c := by
    simpa using h
  exact ⟨l, rfl⟩

theorem take_one_shape {l : Chars} {a : Char} (h : l.take 1 = [a]) :
    ∃ t, l = a :: t := by
  rcases l with _ | ⟨x, l⟩
  · simp at h
  simp only [List.take_succ_cons, List.take_zero] at h
  obtain rfl : x = a := by simpa using h
  exact ⟨l, rfl⟩

theorem doctype_lower_shape {l : Chars}
    (h : lowerChars (l.take 8) = lowerChars strBangDoctype) :
    ∃ c1 t, l = '!' :: c1 :: t ∧ charLower c1 = 'd' := by
  have hRHS : lowerChars strBangDoctype = ['!', 'd', 'o', 'c', 't', 'y', 'p', 'e'] := rfl
  rw [hRHS] at h
  rcases l with _ | ⟨c0, l⟩
  · simp [lowerChars] at h
  rcases l with _ | ⟨c1, l⟩
  · simp [lowerChars] at h
  simp only [List.take_succ_cons, lowerChars, List.map_cons, List.cons.injEq] at h
  obtain ⟨h0, h1, _⟩ := h
  exact ⟨c1, l, by rw [charLower_eq_bang h0], h1⟩

/-- Claim C1: in state Content with a < under the cursor, State.tokenize
consumes the delimiter and dispatches on the text after the <:
a leading !-- yields WithinComment and DELIM_COMMENT; a case-insensitive
!DOCTYPE yields WithinDoctype and DELIM_DOCTYPE; a leading / yields
OpeningEndTag and DELIM_END; everything else yields OpeningStartTag and
DELIM_START. -/
theorem claim_C1_content_lt_dispatch (st : State) (s : HStream)
    (hk : st.kind = States.Content) (he : s.eos = false) (hp : s.peek = '<') :
    ((s.src.drop (s.pos + 1)).take 3 = strBangDashDash →
      (State.tokenize st s).state.kind = States.WithinComment
      ∧ (State.tokenize st s).type = some TokenType.delimComment
      ∧ (State.tokenize st s).stream.pos = s.pos + 4)
    ∧ (lowerChars ((s.src.drop (s.pos + 1)).take 8) = lowerChars strBangDoctype →
      (State.tokenize st s).state.kind = States.WithinDoctype
      ∧ (State.tokenize st s).type = some TokenType.delimDoctype
      ∧ (State.tokenize st s).stream.pos = s.pos + 9)
    ∧ ((s.src.drop (s.pos + 1)).take 1 = strSlash →
      (State.tokenize st s).state.kind = States.OpeningEndTag
      ∧ (State.tokenize st s).type = some TokenType.delimEnd
      ∧ (State.tokenize st s).stream.pos = s.pos + 2)
    ∧ ((s.src.drop (s.pos + 1)).take 3 ≠ strBangDashDash →
       lowerChars ((s.src.drop (s.pos + 1)).take 8) ≠ lowerChars strBangDoctype →
       (s.src.drop (s.pos + 1)).take 1 ≠ strSlash →
      (State.tokenize st s).state.kind = States.OpeningStartTag
      ∧ (State.tokenize st s).type = some TokenType.delimStart
      ∧ (State.tokenize st s).stream.pos = s.pos + 1) := by
  have hred : State.tokenize st s = tokenizeContentAfterLt st (s.advance 1) := by
    unfold State.tokenize
    rw [tokenizeAux.eq_2, hk]
    dsimp only []
    rw [aicc2_true_snd s '<' he hp]
    dsimp only []
    rw [if_pos rfl]
  have hr1 : (s.advance 1).rest = s.src.drop (s.pos + 1) := rfl
  have hD : ∀ st1 : State, ¬ ((s.advance 1).eos = false ∧ (s.advance 1).peek = '/') →
      afterLtSlash st1 (s.advance 1) =
        ret .delimStart true { st1 with kind := .OpeningStartTag } (s.advance 1) := by
    intro st1 hne
    unfold afterLtSlash
    rw [aicc2_false _ '/' hne]
    dsimp only []
    rw [if_neg (by simp : ¬ false = true)]
  refine ⟨?_, ?_, ?_, ?_⟩
  · -- comment case
    intro hA
    rw [← hr1] at hA
    obtain ⟨t, ht⟩ := take_three_shape hA
    have he1 : (s.advance 1).eos = false := eos_false_of_rest_cons _ ht
    have hp1 : (s.advance 1).peek = '!' := peek_of_rest_cons _ ht
    rw [hred]
    unfold tokenizeContentAfterLt
    rw [if_pos ⟨he1, hp1⟩, aifs2_true_snd _ strBangDashDash hA]
    dsimp only []
    rw [if_pos rfl]
    refine ⟨rfl, rfl, ?_⟩
    simp only [ret_stream, HStream.advance_pos]
    show s.pos + 1 + 3 = s.pos + 4
    omega
  · -- doctype case
    intro hB
    rw [← hr1] at hB
    obtain ⟨c1, t, ht, hc1⟩ := doctype_lower_shape hB
    have he1 : (s.advance 1).eos = false := eos_false_of_rest_cons _ ht
    have hp1 : (s.advance 1).peek = '!' := peek_of_rest_cons _ ht
    have hnA : ¬ (s.advance 1).rest.take strBangDashDash.length = strBangDashDash := by
      rw [ht]
      intro hcontra
      simp only [strBangDashDash, List.length_cons, List.length_nil,
        List.take_succ_cons, List.cons.injEq] at hcontra
      obtain ⟨_, hc1e, _⟩ := hcontra
      rw [hc1e] at hc1
      exact absurd hc1 (by decide)
    rw [hred]
    unfold tokenizeContentAfterLt
    rw [if_pos ⟨he1, hp1⟩, aifs2_false _ strBangDashDash hnA]
    dsimp only []
    rw [if_neg (by simp : ¬ false = true), aifsci2_true_snd _ strBangDoctype hB]
    dsimp only []
    rw [if_pos rfl]
    refine ⟨rfl, rfl, ?_⟩
    simp only [ret_stream, HStream.advance_pos]
    show s.pos + 1 + 8 = s.pos + 9
    omega
  · -- end-tag case
    intro hC
    rw [← hr1] at hC
    obtain ⟨t, ht⟩ := take_one_shape hC
    have he1 : (s.advance 1).eos = false := eos_false_of_rest_cons _ ht
    have hp1 : (s.advance 1).peek = '/' := peek_of_rest_cons _ ht
    rw [hred]
    unfold tokenizeContentAfterLt
    rw [if_neg (by
      rintro ⟨_, hpe⟩
      rw [hp1] at hpe
      exact absurd hpe (by decide))]
    unfold afterLtSlash
    rw [aicc2_true_snd _ '/' he1 hp1]
    dsimp only []
    rw [if_pos rfl]
    refine ⟨rfl, rfl, ?_⟩
    simp only [ret_stream, HStream.advance_pos]
  · -- start-tag case
    intro hnA hnB hnC
    rw [← hr1] at hnA hnB hnC
    rw [hred]
    by_cases he1 : (s.advance 1).eos = false
    · by_cases hp1 : (s.advance 1).peek = '!'
      · unfold tokenizeContentAfterLt
        rw [if_pos ⟨he1, hp1⟩,
          aifs2_false _ strBangDashDash (by exact hnA),
          aifsci2_false _ strBangDoctype (by exact hnB)]
        dsimp only []
        rw [if_neg (by simp : ¬ false = true), if_neg (by simp : ¬ false = true)]
        rw [hD st (by
          rintro ⟨_, hpe⟩
          rw [hp1] at hpe
          exact absurd hpe (by decide))]
        refine ⟨rfl, rfl, ?_⟩
        simp only [ret_stream, HStream.advance_pos]
      · unfold tokenizeContentAfterLt
        rw [if_neg (by rintro ⟨_, hpe⟩; exact hp1 hpe)]
        have hps : ¬ (s.advance 1).peek = '/' := by
          intro hpe
          apply hnC
          rw [rest_eq_cons _ he1, hpe]
          rfl
        rw [hD st (by rintro ⟨_, hpe⟩; exact hps hpe)]
        refine ⟨rfl, rfl, ?_⟩
        simp only [ret_stream, HStream.advance_pos]
    · unfold tokenizeContentAfterLt
      rw [if_neg (by rintro ⟨h1, _⟩; exact he1 h1)]
      rw [hD st (by rintro ⟨h1, _⟩; exact he1 h1)]
      refine ⟨rfl, rfl, ?_⟩
      simp only [ret_stream, HStream.advance_pos]

def c1Stream : HStream := { src := ['<', '!', '-', '-', 'z'], pos := 0 }

theorem claim_C1_witness :
    (getInitialState.kind = States.Content ∧ c1Stream.eos = false
      ∧ c1Stream.peek = '<'
      ∧ (c1Stream.src.drop (c1Stream.pos + 1)).take 3 = strBangDashDash)
    ∧ (State.tokenize getInitialState c1Stream).state.kind = States.WithinComment
    ∧ (State.tokenize getInitialState c1Stream).type = some TokenType.delimComment
    ∧ (State.tokenize getInitialState c1Stream).stream.pos = c1Stream.pos + 4 := by
  refine ⟨⟨rfl, by decide, by decide, by decide⟩, ?_⟩
  exact (claim_C1_content_lt_dispatch getInitialState c1Stream rfl (by decide)
    (by decide)).1 (by decide)

theorem findCloseTag_spec (tag : Chars) : ∀ (l : Chars) (i : Nat),
    findCloseTag tag l = some i →
    matchCloseAt tag (l.drop i) = true
      ∧ ∀ j, j < i → matchCloseAt tag (l.drop j) = false := by
  intro l
  induction l with
  | nil =>
    intro i h
    simp [findCloseTag] at h
  | cons c t ih =>
    intro i h
    unfold findCloseTag at h
    split at h
    · rename_i hm
      have hi : i = 0 := by
        simpa using h.symm
      subst hi
      refine ⟨by simpa using hm, ?_⟩
      intro j hj
      omega
    · rename_i hm
      simp only [Option.map_eq_some'] at h
      obtain ⟨y, hy, rfl⟩ := h
      obtain ⟨h1, h2⟩ := ih y hy
      refine ⟨by simpa using h1, ?_⟩
      intro j hj
      cases j with
      | zero =>
        simpa using hm
      | succ j2 =>
        have := h2 j2 (by omega)
        simpa using this

/-- The line and state of the counterexample to claim C7 as written: a
script region closed by an end tag with a space before the >. -/
def c7Line : Chars := ['<', '/', 's', 'c', 'r', 'i', 'p', 't', ' ', '>']

def c7State : State :=
  { getInitialState with kind := .WithinEmbeddedContent, lastTagName := strScript }

/-- Counterexample to claim C7 as written: getLeavingNestedModeData returns
a non-null split of the line although the literal string formed of
'</' + lastTagName + '>' does not occur in the line at all (the regexp of
the source allows whitespace before the closing >), so the line is not
split at the first occurrence of that literal string. -/
theorem claim_C7_counterexample :
    (getLeavingNestedModeData c7Line c7State).isSome = true
    ∧ firstIndexOfCI (closeTagLiteral c7State.lastTagName) c7Line = none := by
  decide

/-- Claim C7 as amended: whenever getLeavingNestedModeData (of HTMLMode, and
equally of RAZORMode) returns a non-null result, nestedModeBuffer and
bufferAfterNestedMode concatenate back to the line, the split point is the
first match of the case-insensitive pattern '</' + lastTagName + optional
whitespace + '>', and stateAfterNestedMode is a Content state with every
string field empty. -/
theorem claim_C7_leaving_nested_mode (line : Chars) (st : State)
    (d : LeavingNestedModeData) (h : getLeavingNestedModeData line st = some d) :
    d.nestedModeBuffer ++ d.bufferAfterNestedMode = line
    ∧ (∃ i, findCloseTag st.lastTagName line = some i
        ∧ d.nestedModeBuffer = line.take i
        ∧ d.bufferAfterNestedMode = line.drop i
        ∧ matchCloseAt st.lastTagName (line.drop i) = true
        ∧ ∀ j, j < i → matchCloseAt st.lastTagName (line.drop j) = false)
    ∧ d.stateAfterNestedMode.kind = States.Content
    ∧ d.stateAfterNestedMode.lastTagName = []
    ∧ d.stateAfterNestedMode.lastAttributeName = some []
    ∧ d.stateAfterNestedMode.embeddedContentType = some []
    ∧ d.stateAfterNestedMode.attributeValueQuote = []
    ∧ d.stateAfterNestedMode.attributeValue = []
    ∧ razorGetLeavingNestedModeData line st
        = some { d with stateAfterNestedMode := getInitialState } := by
  unfold getLeavingNestedModeData at h
  cases hf : findCloseTag st.lastTagName line with
  | none =>
    rw [hf] at h
    simp at h
  | some i =>
    rw [hf] at h
    simp only [Option.some.injEq] at h
    subst h
    obtain ⟨h1, h2⟩ := findCloseTag_spec st.lastTagName line i hf
    refine ⟨List.take_append_drop i line, ⟨i, rfl, rfl, rfl, h1, h2⟩,
      rfl, rfl, rfl, rfl, rfl, rfl, ?_⟩
    unfold razorGetLeavingNestedModeData getLeavingNestedModeData
    rw [hf]
    rfl

def c7WitLine : Chars := ['x', '<', '/', 'a', '>']

def c7WitState : State :=
  { getInitialState with kind := .WithinEmbeddedContent, lastTagName := ['a'] }

def c7WitData : LeavingNestedModeData :=
  { nestedModeBuffer := ['x'], bufferAfterNestedMode := ['<', '/', 'a', '>'],
    stateAfterNestedMode := getInitialState }

theorem claim_C7_witness :
    getLeavingNestedModeData c7WitLine c7WitState = some c7WitData
    ∧ c7WitData.nestedModeBuffer ++ c7WitData.bufferAfterNestedMode = c7WitLine
    ∧ c7WitData.stateAfterNestedMode.kind = States.Content
    ∧ razorGetLeavingNestedModeData c7WitLine c7WitState
        = some { c7WitData with stateAfterNestedMode := getInitialState } := by
  have h : getLeavingNestedModeData c7WitLine c7WitState = some c7WitData := by decide
  have h2 := claim_C7_leaving_nested_mode c7WitLine c7WitState c7WitData h
  exact ⟨h, h2.1, h2.2.2.1, h2.2.2.2.2.2.2.2.2⟩

/-! ## Scrollbar lemmas (claims C8 and C9) -/

theorem round_nonneg_q {x : ℚ} (h : 0 ≤ x) : 0 ≤ round x := by
  rw [round_eq]
  apply Int.floor_nonneg.mpr
  linarith

theorem round_le_int {x : ℚ} {B : ℤ} (h : x ≤ (B : ℚ)) : round x ≤ B := by
  rw [round_eq]
  have h2 : x + 1 / 2 ≤ (B : ℚ) + 1 / 2 := by linarith
  calc ⌊x + 1 / 2⌋ ≤ ⌊(B : ℚ) + 1 / 2⌋ := Int.floor_le_floor h2
  _ = B := by
      rw [add_comm, Int.floor_add_int]
      norm_num

/-- The representable size rounds to this integer. -/
def computedRepresentableSizeZ (s : ScrollbarState) : ℤ :=
  max 0 (max 0 (s.visibleSize - s.oppositeScrollbarSize) - 2 * s.arrowSize)

theorem repQ_eq_cast (s : ScrollbarState) :
    computedRepresentableSizeQ s = (computedRepresentableSizeZ s : ℚ) := by
  unfold computedRepresentableSizeQ computedAvailableSizeQ computedRepresentableSizeZ
  push_cast
  rfl

@[simp] theorem refresh_visibleSize (s : ScrollbarState) :
    (refreshComputedValues s).visibleSize = s.visibleSize := rfl

@[simp] theorem refresh_scrollSize (s : ScrollbarState) :
    (refreshComputedValues s).scrollSize = s.scrollSize := rfl

@[simp] theorem refresh_scrollPosition (s : ScrollbarState) :
    (refreshComputedValues s).scrollPosition = s.scrollPosition := rfl

@[simp] theorem refresh_isNeeded (s : ScrollbarState) :
    (refreshComputedValues s).computedIsNeeded = computedIsNeededB s := rfl

@[simp] theorem refresh_sliderSize (s : ScrollbarState) :
    (refreshComputedValues s).computedSliderSize = round (sliderPair s).1 := rfl

@[simp] theorem refresh_sliderPosition (s : ScrollbarState) :
    (refreshComputedValues s).computedSliderPosition = round (sliderPair s).2 := rfl

theorem refresh_rep_int (s : ScrollbarState) :
    (refreshComputedValues s).computedRepresentableSize = computedRepresentableSizeZ s := by
  show round (computedRepresentableSizeQ s) = _
  rw [repQ_eq_cast, round_intCast]

theorem refresh_idem (s : ScrollbarState) :
    refreshComputedValues (refreshComputedValues s) = refreshComputedValues s := rfl

theorem refresh_slider_inside (s : ScrollbarState)
    (hN : (refreshComputedValues s).computedIsNeeded = true)
    (h0 : 0 ≤ s.scrollPosition)
    (h1 : s.scrollPosition ≤ s.scrollSize - s.visibleSize)
    (h20 : 20 ≤ (refreshComputedValues s).computedRepresentableSize) :
    sliderInsideTrack (refreshComputedValues s) := by
  rw [refresh_rep_int] at h20
  have hNb : computedIsNeededB s = true := hN
  have hrepQ := repQ_eq_cast s
  have hrep20Q : (20 : ℚ) ≤ computedRepresentableSizeQ s := by
    rw [hrepQ]
    exact_mod_cast h20
  have hr0 : 0 ≤ computedRatioQ s := by
    unfold computedRatioQ
    split
    · rename_i hss
      apply div_nonneg
      · linarith
      · linarith
    · exact le_refl 0
  have hpos0 : (0 : ℚ) ≤ ((⌊(s.scrollPosition : ℚ) * computedRatioQ s⌋ : ℤ) : ℚ) := by
    have hm : (0 : ℚ) ≤ (s.scrollPosition : ℚ) * computedRatioQ s :=
      mul_nonneg (by exact_mod_cast h0) hr0
    exact_mod_cast Int.floor_nonneg.mpr hm
  have hsum : ((⌊(s.scrollPosition : ℚ) * computedRatioQ s⌋ : ℤ) : ℚ)
      + ((⌊(s.visibleSize : ℚ) * computedRatioQ s⌋ : ℤ) : ℚ)
      ≤ computedRepresentableSizeQ s := by
    by_cases hss : 0 < (s.scrollSize : ℚ)
    · have hr_eq : computedRatioQ s = computedRepresentableSizeQ s / s.scrollSize := by
        unfold computedRatioQ
        rw [if_pos hss]
      have hb1 : ((⌊(s.scrollPosition : ℚ) * computedRatioQ s⌋ : ℤ) : ℚ)
          ≤ (s.scrollPosition : ℚ) * computedRatioQ s := Int.floor_le _
      have hb2 : ((⌊(s.visibleSize : ℚ) * computedRatioQ s⌋ : ℤ) : ℚ)
          ≤ (s.visibleSize : ℚ) * computedRatioQ s := Int.floor_le _
      have hsv : (s.scrollPosition : ℚ) + s.visibleSize ≤ s.scrollSize := by
        exact_mod_cast (by omega : s.scrollPosition + s.visibleSize ≤ s.scrollSize)
      have hmul : ((s.scrollPosition : ℚ) + s.visibleSize) * computedRatioQ s
          ≤ (s.scrollSize : ℚ) * computedRatioQ s :=
        mul_le_mul_of_nonneg_right hsv hr0
      have hfull : (s.scrollSize : ℚ) * computedRatioQ s = computedRepresentableSizeQ s := by
        rw [hr_eq]
        field_simp
      nlinarith
    · have hr_eq : computedRatioQ s = 0 := by
        unfold computedRatioQ
        rw [if_neg hss]
      rw [hr_eq]
      simp
      linarith
  have h20Q : (20 : ℚ) ≤ (computedRepresentableSizeZ s : ℚ) := by exact_mod_cast h20
  unfold sliderInsideTrack
  rw [refresh_sliderPosition, refresh_sliderSize, refresh_rep_int]
  unfold sliderPair sliderPairArtificial glueTop glueBottom
  rw [hNb, if_neg (by simp : ¬ (true = false))]
  simp only [show MINIMUM_SLIDER_SIZE = (20 : ℤ) from rfl]
  push_cast
  split
  · -- the artificially enlarged slider
    rename_i hlt
    dsimp only []
    have hGT : ∀ X : ℚ, (0 : ℚ) ≤ if X < 0 then 0 else X := by
      intro X
      split
      · exact le_refl 0
      · rename_i ht
        push_neg at ht
        exact ht
    constructor
    · apply round_nonneg_q
      exact hGT _
    · have hr20 : round (20 : ℚ) = (20 : ℤ) := by norm_num [round_eq]
      rw [hr20]
      have key : round (if (if computedRepresentableSizeQ s <
              ((⌊(s.scrollPosition : ℚ) * computedRatioQ s⌋ : ℤ) : ℚ)
                - (20 - ((⌊(s.visibleSize : ℚ) * computedRatioQ s⌋ : ℤ) : ℚ)) / 2 + 20 then
            computedRepresentableSizeQ s - 20
          else ((⌊(s.scrollPosition : ℚ) * computedRatioQ s⌋ : ℤ) : ℚ)
            - (20 - ((⌊(s.visibleSize : ℚ) * computedRatioQ s⌋ : ℤ) : ℚ)) / 2) < 0 then 0
          else if computedRepresentableSizeQ s <
              ((⌊(s.scrollPosition : ℚ) * computedRatioQ s⌋ : ℤ) : ℚ)
                - (20 - ((⌊(s.visibleSize : ℚ) * computedRatioQ s⌋ : ℤ) : ℚ)) / 2 + 20 then
            computedRepresentableSizeQ s - 20
          else ((⌊(s.scrollPosition : ℚ) * computedRatioQ s⌋ : ℤ) : ℚ)
            - (20 - ((⌊(s.visibleSize : ℚ) * computedRatioQ s⌋ : ℤ) : ℚ)) / 2)
          ≤ computedRepresentableSizeZ s - 20 := by
        apply round_le_int
        push_cast
        rw [hrepQ]
        split
        · split
          · linarith
          · linarith
        · rename_i hbot
          push_neg at hbot
          split
          · linarith
          · linarith
      omega
  · -- the naturally sized slider
    rename_i hge
    dsimp only []
    constructor
    · exact round_nonneg_q hpos0
    · rw [round_intCast, round_intCast]
      have hQ : ((⌊(s.scrollPosition : ℚ) * computedRatioQ s⌋ : ℤ) : ℚ)
          + ((⌊(s.visibleSize : ℚ) * computedRatioQ s⌋ : ℤ) : ℚ)
          ≤ (computedRepresentableSizeZ s : ℚ) := by
        rw [← hrepQ]
        exact hsum
      exact_mod_cast hQ

/-- The slider geometry property of claim C8, with the claim's hypotheses:
scrolling is needed, the scroll position is in range, and the representable
size is at least the 20-pixel minimum slider size. -/
def sliderGeometryOK (t : ScrollbarState) : Prop :=
  t.computedIsNeeded = true → 0 ≤ t.scrollPosition →
  t.scrollPosition ≤ t.scrollSize - t.visibleSize →
  20 ≤ t.computedRepresentableSize → sliderInsideTrack t

theorem sliderOK_refresh (s : ScrollbarState) :
    sliderGeometryOK (refreshComputedValues s) := by
  intro hN h0 h1 h20
  exact refresh_slider_inside s hN h0 h1 h20

/-- Claim C8: after construction and after every call to setVisibleSize,
setScrollSize or setScrollPosition (on a state whose computed values agree
with its raw fields, as every state produced by the constructor and the
setters does), if scrolling is needed, 0 <= scrollPosition <=
scrollSize - visibleSize and the computed representable size is at least the
20-pixel minimum slider size, then the slider lies inside the track. -/
theorem claim_C8_slider_inside_track :
    (∀ a b c : ℚ, sliderGeometryOK (mkScrollbarState a b c))
    ∧ (∀ (s : ScrollbarState) (v : ℚ), s.Refreshed →
        sliderGeometryOK (s.setVisibleSize v).2)
    ∧ (∀ (s : ScrollbarState) (v : ℚ), s.Refreshed →
        sliderGeometryOK (s.setScrollSize v).2)
    ∧ (∀ (s : ScrollbarState) (v : ℚ), s.Refreshed →
        sliderGeometryOK (s.setScrollPosition v).2) := by
  refine ⟨?_, ?_, ?_, ?_⟩
  · intro a b c
    exact sliderOK_refresh _
  · intro s v hR
    unfold ScrollbarState.setVisibleSize
    dsimp only []
    split
    · rw [← hR]
      exact sliderOK_refresh s
    · exact sliderOK_refresh _
  · intro s v hR
    unfold ScrollbarState.setScrollSize
    dsimp only []
    split
    · rw [← hR]
      exact sliderOK_refresh s
    · exact sliderOK_refresh _
  · intro s v hR
    unfold ScrollbarState.setScrollPosition
    dsimp only []
    split
    · rw [← hR]
      exact sliderOK_refresh s
    · exact sliderOK_refresh _

/-- The concrete raw state of the C8 witness. -/
def c8Raw : ScrollbarState :=
  { arrowSize := 0, scrollbarSize := 10, oppositeScrollbarSize := 0,
    visibleSize := 30, scrollSize := 100, scrollPosition := 5,
    computedAvailableSize := 0, computedRepresentableSize := 0,
    computedRatio := 1 / 10, computedIsNeeded := false,
    computedSliderSize := 0, computedSliderPosition := 0 }

theorem claim_C8_witness :
    ((refreshComputedValues c8Raw).setVisibleSize 30).2 = refreshComputedValues c8Raw
    ∧ (refreshComputedValues c8Raw).Refreshed
    ∧ (refreshComputedValues c8Raw).computedIsNeeded = true
    ∧ 0 ≤ (refreshComputedValues c8Raw).scrollPosition
    ∧ (refreshComputedValues c8Raw).scrollPosition
        ≤ (refreshComputedValues c8Raw).scrollSize
          - (refreshComputedValues c8Raw).visibleSize
    ∧ 20 ≤ (refreshComputedValues c8Raw).computedRepresentableSize
    ∧ sliderInsideTrack ((refreshComputedValues c8Raw).setVisibleSize 30).2 := by
  have h30 : round (30 : ℚ) = 30 := by norm_num [round_eq]
  have hset : ((refreshComputedValues c8Raw).setVisibleSize 30).2
      = refreshComputedValues c8Raw := by
    unfold ScrollbarState.setVisibleSize
    dsimp only []
    rw [h30, if_pos (show (refreshComputedValues c8Raw).visibleSize = 30 from rfl)]
  have hN : (refreshComputedValues c8Raw).computedIsNeeded = true := by
    rw [refresh_isNeeded]
    simp only [computedIsNeededB, decide_eq_true_eq]
    show ((30 : ℤ) : ℚ) < ((100 : ℤ) : ℚ)
    norm_num
  have h20 : 20 ≤ (refreshComputedValues c8Raw).computedRepresentableSize := by
    rw [refresh_rep_int]
    decide
  refine ⟨hset, refresh_idem c8Raw, hN, by decide, by decide, h20, ?_⟩
  exact claim_C8_slider_inside_track.2.1 (refreshComputedValues c8Raw) 30
    (refresh_idem c8Raw) (by rw [hset]; exact hN) (by rw [hset]; decide)
    (by rw [hset]; decide) (by rw [hset]; exact h20)

/-- Claim C9: validateScrollPosition clamps into [0, scrollSize - visibleSize]
whenever scrollSize is at least visibleSize; when visibleSize exceeds
scrollSize it returns the negative value scrollSize - visibleSize for every
non-negative input, because the upper clamp is applied after the lower
clamp. -/
theorem claim_C9_validate_scroll_position (s : ScrollbarState) (d : ℚ) :
    (s.visibleSize ≤ s.scrollSize →
      0 ≤ s.validateScrollPosition d
      ∧ s.validateScrollPosition d ≤ s.scrollSize - s.visibleSize)
    ∧ (s.scrollSize < s.visibleSize → 0 ≤ d →
      s.validateScrollPosition d = s.scrollSize - s.visibleSize) := by
  unfold ScrollbarState.validateScrollPosition
  dsimp only []
  constructor
  · intro hle
    constructor
    · have h1 : (0 : ℤ) ≤ max (round d) 0 := le_max_right _ _
      have h2 : (0 : ℤ) ≤ s.scrollSize - s.visibleSize := by omega
      exact le_min h1 h2
    · exact min_le_right _ _
  · intro hlt hd
    have hr : 0 ≤ round d := by
      rw [round_eq]
      apply Int.floor_nonneg.mpr
      linarith
    have hm : s.scrollSize - s.visibleSize ≤ max (round d) 0 :=
      le_trans (by omega) (le_max_right _ _)
    exact min_eq_right hm

/-- The concrete raw states of the C9 witness. -/
def c9Raw : ScrollbarState :=
  { arrowSize := 0, scrollbarSize := 10, oppositeScrollbarSize := 0,
    visibleSize := 30, scrollSize := 100, scrollPosition := 5,
    computedAvailableSize := 0, computedRepresentableSize := 0,
    computedRatio := 1 / 10, computedIsNeeded := false,
    computedSliderSize := 0, computedSliderPosition := 0 }

def c9RawSmall : ScrollbarState := { c9Raw with scrollSize := 20 }

theorem claim_C9_witness :
    (c9Raw.visibleSize ≤ c9Raw.scrollSize
      ∧ 0 ≤ c9Raw.validateScrollPosition (7 / 2)
      ∧ c9Raw.validateScrollPosition (7 / 2) ≤ c9Raw.scrollSize - c9Raw.visibleSize)
    ∧ (c9RawSmall.scrollSize < c9RawSmall.visibleSize ∧ (0 : ℚ) ≤ 5
      ∧ c9RawSmall.validateScrollPosition 5
          = c9RawSmall.scrollSize - c9RawSmall.visibleSize) := by
  refine ⟨⟨by decide, ?_⟩, by decide, by norm_num, ?_⟩
  · exact (claim_C9_validate_scroll_position c9Raw (7 / 2)).1 (by decide)
  · exact (claim_C9_validate_scroll_position c9RawSmall 5).2 (by decide) (by norm_num)

/-! ## Configuration lemmas (claims C5 and C6) -/

theorem lookupKey_append_some {source : ConfigMap} {k : Chars} {v : Nat}
    (h : lookupKey source k = some v) (d : ConfigMap) :
    lookupKey (source ++ d) k = some v := by
  induction source with
  | nil => simp [lookupKey] at h
  | cons b t ih =>
    simp only [lookupKey] at h
    simp only [List.cons_append, lookupKey]
    by_cases hb : b.1 = k
    · rw [if_pos hb] at h ⊢
      exact h
    · rw [if_neg hb] at h ⊢
      exact ih h

theorem lookupKey_append_none {source : ConfigMap} {k : Chars}
    (h : lookupKey source k = none) (d : ConfigMap) :
    lookupKey (source ++ d) k = lookupKey d k := by
  induction source with
  | nil => rfl
  | cons b t ih =>
    simp only [lookupKey] at h
    simp only [List.cons_append, lookupKey]
    by_cases hb : b.1 = k
    · rw [if_pos hb] at h
      exact absurd h (by simp)
    · rw [if_neg hb] at h ⊢
      exact ih h

/-- Claim C6: the merged configuration overwrites global/default values with
the consolidated workspace values — every key bound in the consolidated
workspace contents gets the workspace value, every other key keeps its
global/default value, and the merge target is a content-preserving clone of
the global contents, which are therefore left unchanged.
(objects.mixin, objects.clone and model.consolidate are not part of the
fragment and are modelled from the spec as overwrite-merge, copy and
file-merge of flat configuration maps.) -/
theorem claim_C6_merge_postcondition (globals : ConfigMap)
    (values : List (Chars × ConfigMap)) (k : Chars) :
    (∀ v, lookupKey (consolidate values) k = some v →
      lookupKey (doLoadConfigurationMerged globals values) k = some v)
    ∧ (lookupKey (consolidate values) k = none →
      lookupKey (doLoadConfigurationMerged globals values) k = lookupKey globals k)
    ∧ objectsClone globals = globals := by
  refine ⟨?_, ?_, rfl⟩
  · intro v h
    unfold doLoadConfigurationMerged objectsMixin objectsClone
    exact lookupKey_append_some h globals
  · intro h
    unfold doLoadConfigurationMerged objectsMixin objectsClone
    exact lookupKey_append_none h globals

theorem claim_C6_witness :
    (lookupKey (consolidate [([], [(['a'], 42)])]) ['a'] = some 42
      ∧ lookupKey (doLoadConfigurationMerged [(['a'], 1), (['b'], 7)]
          [([], [(['a'], 42)])]) ['a'] = some 42)
    ∧ (lookupKey (consolidate [([], [(['a'], 42)])]) ['b'] = none
      ∧ lookupKey (doLoadConfigurationMerged [(['a'], 1), (['b'], 7)]
          [([], [(['a'], 42)])]) ['b']
        = lookupKey [(['a'], 1), (['b'], 7)] ['b'])
    ∧ objectsClone [(['a'], 1), (['b'], 7)] = [(['a'], 1), (['b'], 7)] :=
  ⟨⟨by decide,
    (claim_C6_merge_postcondition [(['a'], 1), (['b'], 7)] [([], [(['a'], 42)])] ['a']).1
      42 (by decide)⟩,
   ⟨by decide,
    (claim_C6_merge_postcondition [(['a'], 1), (['b'], 7)] [([], [(['a'], 42)])] ['b']).2.1
      (by decide)⟩,
   (claim_C6_merge_postcondition [(['a'], 1), (['b'], 7)] [([], [(['a'], 42)])] ['b']).2.2⟩

/-- Claim C5, evaluated on the model: when resolveStat rejects with a truthy
error, or resolves to a non-directory stat, loadWorkspaceConfiguration
resolves with the empty map and the merged configuration equals the
global/default contents alone — but when resolveStat rejects with a falsy
reason (such as undefined), the error handler of the bulk fetch falls off
its end and resolves with undefined, the following contents.forEach throws,
and loadWorkspaceConfiguration rejects, contradicting the claim (and the
comment in the source that this call must never fail). -/
theorem claim_C5_missing_configuration_behaviour :
    (∀ (resolveContents : List Chars → Except Rejection (List (Chars × Chars)))
        (parse : Chars → ConfigMap),
      loadWorkspaceConfiguration (.error { truthy := true }) resolveContents parse
        = .ok [])
    ∧ (∀ (children : List Chars)
        (resolveContents : List Chars → Except Rejection (List (Chars × Chars)))
        (parse : Chars → ConfigMap),
      loadWorkspaceConfiguration (.ok { isDirectory := false, children := children })
        resolveContents parse = .ok [])
    ∧ (∀ (globals : ConfigMap)
        (resolveContents : List Chars → Except Rejection (List (Chars × Chars)))
        (parse : Chars → ConfigMap),
      doLoadConfiguration globals (.error { truthy := true }) resolveContents parse
        = .ok globals)
    ∧ (∀ (globals : ConfigMap) (children : List Chars)
        (resolveContents : List Chars → Except Rejection (List (Chars × Chars)))
        (parse : Chars → ConfigMap),
      doLoadConfiguration globals (.ok { isDirectory := false, children := children })
        resolveContents parse = .ok globals)
    ∧ (∀ (resolveContents : List Chars → Except Rejection (List (Chars × Chars)))
        (parse : Chars → ConfigMap),
      loadWorkspaceConfiguration (.error { truthy := false }) resolveContents parse
        = .error { truthy := true }) :=
  ⟨fun _ _ => rfl, fun _ _ _ => rfl, fun _ _ _ => rfl, fun _ _ _ _ => rfl, fun _ _ => rfl⟩

